import Mathlib

set_option maxRecDepth 4000
set_option exponentiation.threshold 50000

/-!
# Verification of the crab-db-alloc B+ tree core (crab-dads crate)

This file is a shallow embedding, in Lean 4, of the page format and B+ tree
algorithms of the `crab-dads` crate.  A byte region (the 4088-byte content
area of a page, or a smaller buffer) is modelled as a natural number in
base 256, little-endian: the byte at offset `i` has weight `256 ^ i`.
Every pointer copy of the source becomes arithmetic on these numbers, and
every operation of `src/crab-dads/src/page/mod.rs`, `btree/reader.rs` and
`btree/writer.rs` that the verified claims touch is translated to an
executable Lean function.

Some items referenced by the code are not present in the crate sources
(the current `PageLayout` trait with `determine_key_len`, the
`RevSizedArrayMutResize` cursor, `OccupiedEntry::first`); those are
modelled from the specification, and each such definition carries a doc
comment saying so.
-/

namespace CrabDads

/-- Page size constant `PAGE_4K` from `lib.rs`. -/
def PAGE4K : Nat := 4096

/-- `size_of::<TwoArrayTrailer>()`: `u16 + u16 + u16 + u8 + u8` = 8 bytes. -/
def TRAILER_SIZE : Nat := 8

/-- `CONTENT_SIZE = PAGE_4K - size_of::<TwoArrayTrailer>()` from `page/mod.rs`. -/
def CONTENT_SIZE : Nat := PAGE4K - TRAILER_SIZE

/-- `MAX_VAR_SIZE` from `page/mod.rs`. -/
def MAX_VAR_SIZE : Nat := 1008

/-- The error enum of `lib.rs` (`Error`).  String payloads are dropped. -/
inductive Error where
  | outOfSpace (needed : Nat)
  | dataCorruption
  | writeTooLarge
  | storage
  | unexpectedNoOp
  | incorrectOperation
  | invalidState
  deriving DecidableEq, Repr

instance {ε α : Type} [DecidableEq ε] [DecidableEq α] : DecidableEq (Except ε α) :=
  fun x y =>
    match x, y with
    | .ok a, .ok b =>
        decidable_of_iff (a = b) (by constructor
                                     · intro h; rw [h]
                                     · intro h; injection h)
    | .error a, .error b =>
        decidable_of_iff (a = b) (by constructor
                                     · intro h; rw [h]
                                     · intro h; injection h)
    | .ok _, .error _ => isFalse (fun h => Except.noConfusion h)
    | .error _, .ok _ => isFalse (fun h => Except.noConfusion h)

/-! ## Byte-region helpers

A byte region is a natural number in base 256, little-endian.  Reading a
range yields the little-endian value of those bytes; writing a range is
the split-and-recombine below.  `core::ptr::copy` (memmove) reads its
whole source before writing, which matches the purely functional
translation. -/

/-- The little-endian value of the `len` bytes at offset `off` of `d`. -/
def readBytes (d off len : Nat) : Nat :=
  d / 256 ^ off % 256 ^ len

/-- Overwrite the `len` bytes at offset `off` of `d` with the low `len`
bytes of `src`; all other bytes keep their place. -/
def writeBytes (d off len src : Nat) : Nat :=
  d % 256 ^ off + (src % 256 ^ len) * 256 ^ off
    + d / 256 ^ (off + len) * 256 ^ (off + len)

/-- A byte string `b * (1 + 256 + … + 256^(n-1))`: `n` copies of byte `b`. -/
def repByte (n b : Nat) : Nat :=
  b * ((256 ^ n - 1) / 255)

/-- `x.leading_zeros() >> 3` for a `u64` value: the number of leading zero
bytes. -/
def lzBytes (v : Nat) : Nat :=
  if v = 0 then 8
  else if v < 256 then 7
  else if v < 256 ^ 2 then 6
  else if v < 256 ^ 3 then 5
  else if v < 256 ^ 4 then 4
  else if v < 256 ^ 5 then 3
  else if v < 256 ^ 6 then 2
  else if v < 256 ^ 7 then 1
  else 0

/-- `u64::MAX`. -/
def U64MAX : Nat := 2 ^ 64 - 1

/-- A length-tagged byte string (e.g. a `&[u8]` key or value). -/
structure ByteSeq where
  len : Nat
  bytes : Nat
  deriving DecidableEq, Repr

/-- The byte string of `n` copies of byte `b`. -/
def ByteSeq.rep (n b : Nat) : ByteSeq := ⟨n, repByte n b⟩

end CrabDads

namespace CrabDads

/-! ## The draft layout `LayoutU64U64` of `page/u64_u64.rs`

This is the layout API actually present in `u64_u64.rs` (`from_info`,
`from_data`, `info`, `read_key`, `read_value`, `write_pair`), translated
operation by operation.  It is the code claim C3 is about. -/

/-- The `LayoutU64U64` struct of `page/u64_u64.rs`. -/
structure LayoutU64U64 where
  info : Nat
  key_len : Nat
  val_len : Nat
  key_mask : Nat
  val_mask : Nat
  deriving DecidableEq, Repr

namespace LayoutU64U64

/-- `LayoutU64U64::from_info`.  Note the source compares the still-shifted
value-bits field `info & 0x78` against `0x10` and subtracts it from 8. -/
def from_info (info : Nat) : LayoutU64U64 :=
  let val_bits := info &&& 0x78
  let p : Nat × Nat :=
    if val_bits ≥ 0x10 then (0, 0)
    else (8 - val_bits, U64MAX >>> val_bits)
  { info := info
    val_len := p.1
    val_mask := p.2
    key_len := 8 - (info &&& 0x7)
    key_mask := U64MAX >>> ((info &&& 0x7) <<< 3) }

/-- `LayoutU64U64::from_data` (always returns `Ok` in the source). -/
def from_data (key val : Nat) : LayoutU64U64 :=
  let key_bits := min (lzBytes key) 0x7
  let val_bits := lzBytes val
  let key_len := 8 - key_bits
  let val_len := 8 - val_bits
  let val_bits_shifted := val_bits <<< 3
  let info := key_bits ||| val_bits_shifted
  let key_mask := U64MAX >>> (key_bits <<< 3)
  let val_mask := if val_bits ≥ 0x10 then 0 else U64MAX >>> val_bits_shifted
  { info := info, key_len := key_len, val_len := val_len,
    key_mask := key_mask, val_mask := val_mask }

/-- `LayoutU64U64::read_key`: an unaligned 8-byte little-endian read masked
by `key_mask`. -/
def read_key (l : LayoutU64U64) (buf off : Nat) : Nat :=
  l.key_mask &&& readBytes buf off 8

/-- `LayoutU64U64::read_value`: an unaligned 8-byte little-endian read
masked by `val_mask`. -/
def read_value (l : LayoutU64U64) (buf off : Nat) : Nat :=
  l.val_mask &&& readBytes buf off 8

/-- `LayoutU64U64::write_pair` acting on a byte buffer at offset `off`
(the pair region).  Both old 8-byte words are fetched before writing,
exactly as in the source (where `new_val` is also read from `ptr`, not
`val_ptr`); the key word is written first, the value word second. -/
def write_pair (l : LayoutU64U64) (key val buf off : Nat) : Nat :=
  let new_key := readBytes buf off 8
  let new_val := readBytes buf off 8
  let new_key := (new_key &&& (U64MAX ^^^ l.key_mask)) ||| key
  let buf := writeBytes buf off 8 new_key
  let new_val := (new_val &&& (U64MAX ^^^ l.val_mask)) ||| val
  writeBytes buf (off + l.key_len) 8 new_val

end LayoutU64U64

/-- Storing a pair in a page map region with the draft `u64_u64` layout:
`from_data` computes the layout, `write_pair` encodes the pair into the
key-value array (a zeroed region, as a fresh page provides), and `info()`
is stored in the info array.  Returns the stored info byte and the
written region. -/
def u64u64Store (key val : Nat) : Nat × Nat :=
  let l := LayoutU64U64.from_data key val
  (l.info, LayoutU64U64.write_pair l key val 0 0)

/-- Reading the pair back from the stored info and bytes: reconstruct the
layout with `from_info` and decode with `read_key` and `read_value` (the
value lives right after the `key_len` key bytes). -/
def u64u64Load (info buf : Nat) : Nat × Nat :=
  let l := LayoutU64U64.from_info info
  (l.read_key buf 0, l.read_value buf l.key_len)

/-- Full round trip for the `u64→u64` layout. -/
def u64u64Roundtrip (key val : Nat) : Nat × Nat :=
  let s := u64u64Store key val
  u64u64Load s.1 s.2

end CrabDads

namespace CrabDads

/-! ## Pages and the page map of `page/mod.rs`

A page is its 4088-byte content region plus the trailer fields
(`lower_len`, `upper_len`, `page_type`) of `trailer.rs`.  The content
region holds the upward-growing key-value array at its bottom and the
downward-growing info array at its top; the info record of entry `i`
(entry 0 holding the smallest key) occupies the `infoSize` bytes ending
at `CONTENT_SIZE - i * infoSize`. -/

/-- A 4 kiB page: content bytes (base-256 number) plus the
`TwoArrayTrailer` fields. -/
structure Page where
  data : Nat
  lowerLen : Nat
  upperLen : Nat
  pageType : Nat
  deriving DecidableEq, Repr

/-- `PageMapMut::new`: fresh trailer over zeroed memory. -/
def Page.new (pageType : Nat) : Page :=
  { data := 0, lowerLen := 0, upperLen := 0, pageType := pageType }

/-- A layout in the sense of the `PageLayout` trait used by `page/mod.rs`
and `page_map.rs`.  That trait is not present in the crate sources (only
the stale draft in `traits.rs` is), so the interface is modelled from the
specification: the info array stores one fixed-width record per pair from
which the key and value lengths are reconstructed, and keys are decoded
for ordering comparisons. -/
structure Layout (K V : Type) where
  infoSize : Nat
  keyLenOf : Nat → Nat
  valLenOf : Nat → Nat
  readKey : Nat → ByteSeq → K
  determineKeyLen : K → Except Error Nat
  determineValLen : V → Except Error Nat
  encodeKey : K → Nat
  encodeVal : V → Nat
  mkInfo : K → V → Nat
  updInfoVal : Nat → V → Nat
  keyLt : K → K → Bool
  keyEq : K → K → Bool

/-- The info record of entry `i` (its little-endian value). -/
def Page.infoAt {K V : Type} (lay : Layout K V) (p : Page) (i : Nat) : Nat :=
  readBytes p.data (CONTENT_SIZE - (i + 1) * lay.infoSize) lay.infoSize

/-- The logical info list of a page, entry 0 first. -/
def Page.infos {K V : Type} (lay : Layout K V) (p : Page) : List Nat :=
  (List.range p.upperLen).map (p.infoAt lay)

/-- The little-endian value of a physical info block holding the given
logical info records (entry 0 sits closest to the trailer, i.e. highest). -/
def infoBlock {K V : Type} (lay : Layout K V) (infos : List Nat) : Nat :=
  infos.foldl (fun acc i => acc * 256 ^ lay.infoSize + i % 256 ^ lay.infoSize) 0

/-- Rewrite the info block so that it holds the given logical info list
(the effect of the `RevSizedArrayMut` insert/delete/replace block moves). -/
def setInfos {K V : Type} (lay : Layout K V) (d : Nat) (infos : List Nat) : Nat :=
  writeBytes d (CONTENT_SIZE - infos.length * lay.infoSize)
    (infos.length * lay.infoSize) (infoBlock lay infos)

/-- `TwoArrayTrailer::lengths` check of `from_page`: both arrays fit in
the content region. -/
def Page.lengthsOk {K V : Type} (lay : Layout K V) (p : Page) : Bool :=
  p.lowerLen + p.upperLen * lay.infoSize ≤ CONTENT_SIZE

/-- `PageMapMut::data_len`. -/
def Page.dataLen {K V : Type} (lay : Layout K V) (p : Page) : Nat :=
  p.lowerLen + p.upperLen * lay.infoSize

/-- `PageMapMut::free_space`. -/
def Page.freeSpace {K V : Type} (lay : Layout K V) (p : Page) : Nat :=
  CONTENT_SIZE - p.dataLen lay

/-- Collect the raw (key bytes, value bytes) pairs of a page in entry
order — the forward `PageIter`, including the cursor bound check of
`KeyValArray::next_pair` at every step and the `next_none` check at the
end. -/
def Page.entriesRawGo {K V : Type} (lay : Layout K V) (p : Page) :
    Nat → Nat → Nat → Except Error (List (ByteSeq × ByteSeq))
  | 0, off, _ => if off = p.lowerLen then .ok [] else .error .dataCorruption
  | n + 1, off, i =>
    let info := p.infoAt lay i
    let kl := lay.keyLenOf info
    let vl := lay.valLenOf info
    if off + kl + vl > p.lowerLen then .error .dataCorruption
    else do
      let rest ← p.entriesRawGo lay n (off + kl + vl) (i + 1)
      .ok ((⟨kl, readBytes p.data off kl⟩, ⟨vl, readBytes p.data (off + kl) vl⟩) :: rest)

/-- All raw (key bytes, value bytes) pairs of a page, in entry order. -/
def Page.entriesRaw {K V : Type} (lay : Layout K V) (p : Page) :
    Except Error (List (ByteSeq × ByteSeq)) :=
  p.entriesRawGo lay p.upperLen 0 0

/-- All decoded (key, value bytes) pairs of a page, in entry order. -/
def Page.entries {K V : Type} (lay : Layout K V) (p : Page) :
    Except Error (List (K × ByteSeq)) := do
  let raw ← p.entriesRaw lay
  .ok (raw.map (fun e => (lay.readKey 0 e.1, e.2)))

/-! ### The entry scan of `PageMapMut::entry`

The scan walks the info array from the back
(`RevSizedArrayMutResize::next_back` paired with
`KeyValArrayMutResize::next_pair_back`), i.e. from the largest key
downward, stopping at `Equal` (occupied) or `Less` (vacant, inserting
right above the stopped-at pair). -/

/-- Position resulting from `PageMapMut::entry`: `idx` is the entry index
(0 = smallest key), `off` the byte offset of the entry in the key-value
array. -/
inductive EntryPos where
  | occupied (idx off kl vl : Nat)
  | vacant (idx off : Nat)
  deriving DecidableEq, Repr

/-- The backward scan of `PageMapMut::entry`; `i + 1` entries remain in
front of the cursor, `backOff` is the current back of the key-value
cursor. -/
def Page.entryScanGo {K V : Type} (lay : Layout K V) (p : Page) (key : K) :
    Nat → Nat → Except Error EntryPos
  | 0, backOff =>
    -- kv.next_pair_back_none()
    if backOff = 0 then .ok (.vacant 0 0) else .error .dataCorruption
  | i + 1, backOff =>
    let info := p.infoAt lay i
    let kl := lay.keyLenOf info
    let vl := lay.valLenOf info
    if backOff < kl + vl then .error .dataCorruption
    else
      let off := backOff - (kl + vl)
      let k := lay.readKey info ⟨kl, readBytes p.data off kl⟩
      if lay.keyEq k key then .ok (.occupied i off kl vl)
      else if lay.keyLt k key then .ok (.vacant (i + 1) backOff)
      else p.entryScanGo lay key i off

/-- `PageMapMut::entry`. -/
def Page.entryScan {K V : Type} (lay : Layout K V) (p : Page) (key : K) :
    Except Error EntryPos :=
  p.entryScanGo lay key p.upperLen p.lowerLen

/-- Splice `plen` bytes `pair` into `d` at offset `off`, shifting the
bytes of `[off, bound)` up and leaving the bytes from `bound + plen` on
unchanged — the effect of `KeyValArrayMutResize::back_insert` plus the
key/value writes, where `bound` is the end of the key-value array. -/
def spliceIn (d off bound plen pair : Nat) : Nat :=
  d % 256 ^ off + (pair % 256 ^ plen) * 256 ^ off
    + readBytes d off (bound - off) * 256 ^ (off + plen)
    + d / 256 ^ (bound + plen) * 256 ^ (bound + plen)

/-- Remove `len` bytes at offset `off`, shifting `[off + len, bound)`
down; the bytes from `bound - len` on keep their old values, as the
`memmove` of `KeyValArrayMutResize::delete` leaves them. -/
def spliceOut (d off len bound : Nat) : Nat :=
  d % 256 ^ off + readBytes d (off + len) (bound - off - len) * 256 ^ off
    + d / 256 ^ (bound - len) * 256 ^ (bound - len)

/-- Insert at position `idx` of a list. -/
def insertIdx {α : Type} (idx : Nat) (a : α) (l : List α) : List α :=
  l.take idx ++ [a] ++ l.drop idx

/-- Remove position `idx` of a list. -/
def removeIdx {α : Type} (idx : Nat) (l : List α) : List α :=
  l.take idx ++ l.drop (idx + 1)

/-- `VacantEntry::insert` of `page/mod.rs`.  Size checks come first; on
`Err` the source returns `(self, error)` with no byte of the page
written, which the returned pair mirrors by carrying the unchanged page. -/
def Page.vacantInsert {K V : Type} (lay : Layout K V) (p : Page) (idx off : Nat)
    (key : K) (val : V) : Page × Except Error Unit :=
  match lay.determineKeyLen key with
  | .error e => (p, .error e)
  | .ok key_len =>
    match lay.determineValLen val with
    | .error e => (p, .error e)
    | .ok val_len =>
      let total_len := p.lowerLen + p.upperLen * lay.infoSize
      let free := CONTENT_SIZE - total_len
      let needed := key_len + val_len + lay.infoSize
      if needed > free then (p, .error (.outOfSpace needed))
      else
        let pair := lay.encodeKey key % 256 ^ key_len
                      + (lay.encodeVal val % 256 ^ val_len) * 256 ^ key_len
        let d1 := spliceIn p.data off p.lowerLen (key_len + val_len) pair
        let d2 := setInfos lay d1 (insertIdx idx (lay.mkInfo key val) (p.infos lay))
        ({ data := d2
           lowerLen := p.lowerLen + key_len + val_len
           upperLen := p.upperLen + 1
           pageType := p.pageType }, .ok ())

/-- `VacantEntry::insert_vectored` of `page/mod.rs`, whose space check
reads `if needed < free` where `insert` reads `if needed > free`. -/
def Page.vacantInsertVectored {K V : Type} (lay : Layout K V) (p : Page) (idx off : Nat)
    (key : K) (val : V) : Page × Except Error Unit :=
  match lay.determineKeyLen key with
  | .error e => (p, .error e)
  | .ok key_len =>
    match lay.determineValLen val with
    | .error e => (p, .error e)
    | .ok val_len =>
      let total_len := p.lowerLen + p.upperLen * lay.infoSize
      let free := CONTENT_SIZE - total_len
      let needed := key_len + val_len + lay.infoSize
      if needed < free then (p, .error (.outOfSpace needed))
      else
        let pair := lay.encodeKey key % 256 ^ key_len
                      + (lay.encodeVal val % 256 ^ val_len) * 256 ^ key_len
        let d1 := spliceIn p.data off p.lowerLen (key_len + val_len) pair
        let d2 := setInfos lay d1 (insertIdx idx (lay.mkInfo key val) (p.infos lay))
        ({ data := d2
           lowerLen := p.lowerLen + key_len + val_len
           upperLen := p.upperLen + 1
           pageType := p.pageType }, .ok ())

/-- `OccupiedEntry::replace` of `page/mod.rs`: compute the length delta,
fail with `OutOfSpace` when `free < delta` (no mutation), otherwise
resize the value in place (`kv.resize`) and update its info record
(`info.write_value`). -/
def Page.occupiedReplace {K V : Type} (lay : Layout K V) (p : Page)
    (idx off kl vl : Nat) (val : V) : Page × Except Error Unit :=
  match lay.determineValLen val with
  | .error e => (p, .error e)
  | .ok new_len =>
    let delta : Int := (new_len : Int) - (vl : Int)
    let free := CONTENT_SIZE - (p.lowerLen + p.upperLen * lay.infoSize)
    if (free : Int) < delta then (p, .error (.outOfSpace delta.toNat))
    else
      let valOff := off + kl
      let d1 := p.data % 256 ^ valOff
                  + (lay.encodeVal val % 256 ^ new_len) * 256 ^ valOff
                  + readBytes p.data (valOff + vl) (p.lowerLen - valOff - vl)
                      * 256 ^ (valOff + new_len)
                  + p.data / 256 ^ (p.lowerLen - vl + new_len)
                      * 256 ^ (p.lowerLen - vl + new_len)
      let oldInfo := p.infoAt lay idx
      let d2 := setInfos lay d1
        ((p.infos lay).take idx ++ [lay.updInfoVal oldInfo val]
          ++ (p.infos lay).drop (idx + 1))
      ({ data := d2
         lowerLen := p.lowerLen - vl + new_len
         upperLen := p.upperLen
         pageType := p.pageType }, .ok ())

/-- `OccupiedEntry::delete` of `page/mod.rs`: drop the pair from both
arrays and shrink the trailer lengths. -/
def Page.occupiedDelete {K V : Type} (lay : Layout K V) (p : Page)
    (idx off kl vl : Nat) : Page :=
  let d1 := spliceOut p.data off (kl + vl) p.lowerLen
  let d2 := setInfos lay d1 (removeIdx idx (p.infos lay))
  { data := d2
    lowerLen := p.lowerLen - (kl + vl)
    upperLen := p.upperLen - 1
    pageType := p.pageType }

end CrabDads

namespace CrabDads

/-! ### `find_cutpoint`, `split_to`, `balance`, `copy_to` of `page/mod.rs` -/

/-- The `Cutpoint` struct of `page/mod.rs`. -/
structure Cutpoint where
  lower_len : Nat
  upper_bytes : Nat
  deriving DecidableEq, Repr

/-- The loop of `PageMapMut::find_cutpoint`: iterate the info records
from the largest-key side (`RevSizedArray::next_back`), accumulating
moved bytes, until taking the next pair would exceed `target`; then take
or leave the boundary pair, whichever lands closer to `target` and does
not exceed `max`.  `i + 1` entries remain; `move` and `taken` are
`move_amount` and `taken_lower`. -/
def Page.findCutpointGo {K V : Type} (lay : Layout K V) (p : Page) (target max : Nat) :
    Nat → Nat → Nat → Except Error Cutpoint
  | 0, _, _ => .error .unexpectedNoOp
  | i + 1, move, taken =>
    let info := p.infoAt lay i
    let pair_len := lay.keyLenOf info + lay.valLenOf info
    let add_len := pair_len + lay.infoSize
    if add_len + move > target then
      -- info.remaining_bytes() after this next_back: i records left
      let base := i * lay.infoSize
      if (add_len + move - target > target - move) ∨ (move + add_len > max) then
        -- we do not take the boundary pair
        if taken > p.lowerLen then .error .dataCorruption
        else .ok ⟨taken, base + lay.infoSize⟩
      else
        if taken + pair_len > p.lowerLen then .error .dataCorruption
        else .ok ⟨taken + pair_len, base⟩
    else p.findCutpointGo lay target max i (move + add_len) (taken + pair_len)

/-- `PageMapMut::find_cutpoint`. -/
def Page.findCutpoint {K V : Type} (lay : Layout K V) (p : Page) (target max : Nat) :
    Except Error Cutpoint :=
  p.findCutpointGo lay target max p.upperLen 0 0

/-- `PageMapMut::split_to`: find the cut point at half the total data
length, copy `split_lower_len` key-value bytes from the bottom of the
page and `split_upper_len_bytes` info bytes from the low end of the info
block into the fresh page, then set both trailers.  (These are the exact
offsets of the source.) -/
def Page.splitTo {K V : Type} (lay : Layout K V) (p : Page) :
    Except Error (Page × Page) := do
  let total_len := p.lowerLen + p.upperLen * lay.infoSize
  let cut ← p.findCutpoint lay (total_len / 2) total_len
  let split_lower_len := p.lowerLen - cut.lower_len
  let upper_len_bytes := p.upperLen * lay.infoSize
  let split_upper_len_bytes := upper_len_bytes - cut.upper_bytes
  let nd1 := writeBytes 0 0 split_lower_len (readBytes p.data 0 split_lower_len)
  let nd2 := writeBytes nd1 (CONTENT_SIZE - split_upper_len_bytes) split_upper_len_bytes
              (readBytes p.data (CONTENT_SIZE - upper_len_bytes) split_upper_len_bytes)
  .ok ({ p with lowerLen := cut.lower_len, upperLen := cut.upper_bytes / lay.infoSize },
       { data := nd2, lowerLen := split_lower_len,
         upperLen := split_upper_len_bytes / lay.infoSize, pageType := p.pageType })

/-- The `Balance` enum of `page/mod.rs`. -/
inductive Balance where
  | merged (lower : Page)
  | balanced (lower higher : Page)
  deriving DecidableEq, Repr

/-- The merged page built by the first branch of `PageMapMut::balance`:
the higher page's key-value bytes are copied behind the lower page's,
its info block right below the lower page's, and the trailer lengths are
summed. -/
def mergedPage {K V : Type} (lay : Layout K V) (pL pH : Page) : Page :=
  let upper_copy_len := pH.upperLen * lay.infoSize
  let d1 := writeBytes pL.data pL.lowerLen pH.lowerLen (readBytes pH.data 0 pH.lowerLen)
  let d2 := writeBytes d1 (CONTENT_SIZE - upper_copy_len - pL.upperLen * lay.infoSize)
              upper_copy_len
              (readBytes pH.data (CONTENT_SIZE - upper_copy_len) upper_copy_len)
  { data := d2, lowerLen := pL.lowerLen + pH.lowerLen,
    upperLen := pL.upperLen + pH.upperLen, pageType := pL.pageType }

/-- `PageMapMut::balance` of `page/mod.rs`, with the safety precondition
that every key of `pH` is greater than every key of `pL`.  The three
branches (merge, move toward higher, move toward lower) replay the exact
`memmove`s of the source.  In the third branch the final move of the
higher page's info block writes its last `cutpoint.upper_bytes` bytes
past `CONTENT_SIZE` (over the trailer and past the page — out-of-bounds
in the source); the model truncates that write at the content boundary. -/
def Page.balance {K V : Type} (lay : Layout K V) (pL pH : Page) : Except Error Balance :=
  let self_len := pL.dataLen lay
  let higher_len := pH.dataLen lay
  if self_len + higher_len < CONTENT_SIZE then
    .ok (.merged (mergedPage lay pL pH))
  else if self_len > higher_len then
    -- move bytes from L into H
    match pL.findCutpoint lay ((self_len - higher_len) / 2) (pH.freeSpace lay) with
    | .error e => .error e
    | .ok cut =>
      let hub := pH.upperLen * lay.infoSize
      let d1 := writeBytes pH.data cut.lower_len pH.lowerLen (readBytes pH.data 0 pH.lowerLen)
      let d2 := writeBytes d1 0 cut.lower_len (readBytes pL.data cut.lower_len cut.lower_len)
      let d3 := writeBytes d2 (CONTENT_SIZE - hub - cut.upper_bytes) hub
                  (readBytes d2 (CONTENT_SIZE - hub) hub)
      let d4 := writeBytes d3 (CONTENT_SIZE - hub - cut.upper_bytes) cut.upper_bytes
                  (readBytes pL.data (CONTENT_SIZE - pL.upperLen * lay.infoSize) cut.upper_bytes)
      .ok (.balanced
        { pL with lowerLen := pL.lowerLen - cut.lower_len,
                  upperLen := pL.upperLen - cut.upper_bytes / lay.infoSize }
        { data := d4, lowerLen := pH.lowerLen + cut.lower_len,
          upperLen := pH.upperLen + cut.upper_bytes / lay.infoSize,
          pageType := pH.pageType })
  else
    -- move bytes from H into L
    match pH.findCutpoint lay ((higher_len - self_len) / 2) (pL.freeSpace lay) with
    | .error e => .error e
    | .ok cut =>
      let hub := pH.upperLen * lay.infoSize
      let dl1 := writeBytes pL.data pL.lowerLen cut.lower_len (readBytes pH.data 0 cut.lower_len)
      let dh1 := writeBytes pH.data 0 (pH.lowerLen - cut.lower_len)
                  (readBytes pH.data cut.lower_len (pH.lowerLen - cut.lower_len))
      let dl2 := writeBytes dl1 (CONTENT_SIZE - pL.upperLen * lay.infoSize - cut.upper_bytes)
                  cut.upper_bytes (readBytes dh1 (CONTENT_SIZE - cut.upper_bytes) cut.upper_bytes)
      -- this source memmove runs past CONTENT_SIZE; truncate at the boundary
      let dh2 := writeBytes dh1 (CONTENT_SIZE - hub + cut.upper_bytes) hub
                   (readBytes dh1 (CONTENT_SIZE - hub) hub) % 256 ^ CONTENT_SIZE
      .ok (.balanced
        { data := dl2, lowerLen := pL.lowerLen + cut.lower_len,
          upperLen := pL.upperLen + cut.upper_bytes / lay.infoSize,
          pageType := pL.pageType }
        { data := dh2, lowerLen := pH.lowerLen - cut.lower_len,
          upperLen := pH.upperLen - cut.upper_bytes / lay.infoSize,
          pageType := pH.pageType })

/-- `PageMap::copy_to`: copy the key-value array from the front and the
info array (plus trailer) to the back of a fresh page. -/
def Page.copyTo {K V : Type} (lay : Layout K V) (p : Page) : Page :=
  let ub := p.upperLen * lay.infoSize
  let d1 := writeBytes 0 0 p.lowerLen (readBytes p.data 0 p.lowerLen)
  let d2 := writeBytes d1 (CONTENT_SIZE - ub) ub (readBytes p.data (CONTENT_SIZE - ub) ub)
  { data := d2, lowerLen := p.lowerLen, upperLen := p.upperLen, pageType := p.pageType }

end CrabDads

namespace CrabDads

/-! ### The two concrete layouts used by the tree

`BTreeWrite` is instantiated (see the tests in `btree/mod.rs`) with
`LayoutU64U64` for branches and `LayoutU64Var` for leaves.  The current
(`page/mod.rs`-era) versions of these layout types are not in the crate
sources, so they are modelled from the specification. -/

/-- Modelled from the spec: the `u64 → var` leaf layout.  Keys are `u64`
(the current page API hands out references into the page, so the full 8
little-endian bytes are stored); the 2-byte info record holds the byte
length of the value (spec §3); values longer than `MAX_VAR_SIZE` are
rejected with `WriteTooLarge`. -/
def leafLayout : Layout Nat ByteSeq where
  infoSize := 2
  keyLenOf := fun _ => 8
  valLenOf := fun i => i % 65536
  readKey := fun _ kb => kb.bytes
  determineKeyLen := fun _ => .ok 8
  determineValLen := fun v =>
    if v.len > MAX_VAR_SIZE then .error .writeTooLarge else .ok v.len
  encodeKey := fun k => k
  encodeVal := fun v => v.bytes
  mkInfo := fun _ v => v.len
  updInfoVal := fun _ v => v.len
  keyLt := fun a b => a < b
  keyEq := fun a b => a = b

/-- Modelled from the spec: the `u64 → u64` branch layout (separator key
to child page number).  The current page API hands out `&mut u64` values
into the page, so key and child number are stored as full 8-byte
little-endian fields; the 1-byte info record (spec §3) carries no length
information here. -/
def branchLayout : Layout Nat Nat where
  infoSize := 1
  keyLenOf := fun _ => 8
  valLenOf := fun _ => 8
  readKey := fun _ kb => kb.bytes
  determineKeyLen := fun _ => .ok 8
  determineValLen := fun _ => .ok 8
  encodeKey := fun k => k
  encodeVal := fun v => v
  mkInfo := fun _ _ => 0
  updInfoVal := fun i _ => i
  keyLt := fun a b => a < b
  keyEq := fun a b => a = b

/-- Build a page directly from raw (key bytes, value bytes) pairs and
their info records (for constructing concrete test pages). -/
def Page.ofEntries {K V : Type} (lay : Layout K V) (pageType : Nat)
    (entries : List (ByteSeq × ByteSeq)) (infos : List Nat) : Page :=
  let step := fun (st : Nat × Nat) (e : ByteSeq × ByteSeq) =>
    (writeBytes (writeBytes st.1 st.2 e.1.len e.1.bytes) (st.2 + e.1.len) e.2.len e.2.bytes,
     st.2 + e.1.len + e.2.len)
  let kv := entries.foldl step (0, 0)
  { data := setInfos lay kv.1 infos
    lowerLen := kv.2
    upperLen := infos.length
    pageType := pageType }

/-- A leaf page holding (u64 key, value) pairs in order. -/
def leafPage (entries : List (Nat × ByteSeq)) : Page :=
  Page.ofEntries leafLayout 1 (entries.map (fun e => (⟨8, e.1⟩, e.2)))
    (entries.map (fun e => e.2.len))

/-- A branch page holding (separator, child page number) pairs in order. -/
def branchPage (entries : List (Nat × Nat)) : Page :=
  Page.ofEntries branchLayout 0 (entries.map (fun e => (⟨8, e.1⟩, ⟨8, e.2⟩)))
    (entries.map (fun _ => 0))

end CrabDads

namespace CrabDads

/-! ## Claim C3: encode–decode round trip of the built-in layouts -/

/-- C3: the encode–decode law fails for the `u64→u64` layout of
`page/u64_u64.rs`.  Writing the pair (1, 1) stores info byte `0x3F`
(`from_data`), but `from_info 0x3F` reconstructs a value length of 0
(its value-bits field `0x38` is compared, still shifted, against `0x10`
and subtracted from 8), so reading the pair back yields value 0 instead
of 1. -/
theorem c3_u64u64_roundtrip_failure :
    (LayoutU64U64.from_data 1 1).info = 0x3F ∧
    (LayoutU64U64.from_data 1 1).val_len = 1 ∧
    (LayoutU64U64.from_info 0x3F).val_len = 0 ∧
    u64u64Roundtrip 1 1 = (1, 0) := by decide

/-! ## Claim C4: split and balance preserve the multiset of pairs -/

/-- A leaf page with keys 1–4, each with a 6-byte value. -/
def c4Page : Page :=
  leafPage [(1, .rep 6 7), (2, .rep 6 7), (3, .rep 6 7), (4, .rep 6 7)]

/-- C4: `split_to` does not preserve the multiset of pairs.  On a leaf
holding keys 1–4, the split succeeds but leaves keys 1 and 2 in the
source page *and* in the new page: `find_cutpoint` returns the moved
key-value byte count and the *kept* info byte count, while `split_to`
uses the former as the source's new `lower_len` and copies the key-value
bytes from offset 0 (the bottom half) together with the info records of
the top half.  Keys 3 and 4 are lost, keys 1 and 2 duplicated. -/
theorem c4_split_to_loses_pairs :
    (c4Page.entries leafLayout).map
        (fun (l : List (Nat × ByteSeq)) => l.map Prod.fst) = .ok [1, 2, 3, 4] ∧
    (c4Page.splitTo leafLayout).map
      (fun pr => ((pr.1.entries leafLayout).map
                    (fun (l : List (Nat × ByteSeq)) => l.map Prod.fst),
                  (pr.2.entries leafLayout).map
                    (fun (l : List (Nat × ByteSeq)) => l.map Prod.fst)))
      = .ok (.ok [1, 2], .ok [1, 2]) ∧
    ¬ (([1, 2] ++ [1, 2] : List Nat).Perm [1, 2, 3, 4]) := by decide

/-! ## Claim C5: the merge condition of `balance` -/

/-- Lower neighbour for C5: two entries, 2036 data bytes. -/
def c5L : Page := leafPage [(1, .rep 1008 7), (2, .rep 1008 7)]

/-- Higher neighbour for C5: two entries, 2050 data bytes (all keys above
those of `c5L`). -/
def c5H : Page := leafPage [(3, .rep 1022 7), (4, .rep 1008 7)]

/-- C5 counterexample: `balance` merges two pages whose combined
`data_len` is 4086, although 4086 plus the 8-byte trailer exceeds the
4088-byte content size — the source merges whenever
`data_len(L) + data_len(H) < CONTENT_SIZE`, with no trailer addend.  The
merged page does hold all four entries. -/
theorem c5_merge_condition_counterexample :
    c5L.dataLen leafLayout + c5H.dataLen leafLayout = 4086 ∧
    ¬ (c5L.dataLen leafLayout + c5H.dataLen leafLayout + TRAILER_SIZE ≤ CONTENT_SIZE) ∧
    (match Page.balance leafLayout c5L c5H with
     | .ok (.merged m) =>
         (m.entries leafLayout).map
           (fun (l : List (Nat × ByteSeq)) =>
             l.map (fun (e : Nat × ByteSeq) => (e.1, e.2.len)))
     | _ => .error .invalidState)
      = .ok [(1, 1008), (2, 1008), (3, 1022), (4, 1008)] := by decide

/-! ## Claim C6: the space condition of `VacantEntry::insert` -/

/-- C6: `VacantEntry::insert` succeeds whenever the encoded size
(key bytes + value bytes + one info record) is at most the page's free
space — including an exact fit — and fails with `OutOfSpace(needed)`
leaving the page untouched when it exceeds the free space. -/
theorem c6_vacant_insert_space {K V : Type} (lay : Layout K V) (p : Page) (idx off : Nat)
    (key : K) (val : V) (kl vl : Nat)
    (hk : lay.determineKeyLen key = .ok kl) (hv : lay.determineValLen val = .ok vl) :
    (kl + vl + lay.infoSize ≤ p.freeSpace lay →
       (p.vacantInsert lay idx off key val).2 = .ok ()) ∧
    (kl + vl + lay.infoSize > p.freeSpace lay →
       p.vacantInsert lay idx off key val
         = (p, .error (.outOfSpace (kl + vl + lay.infoSize)))) := by
  unfold Page.vacantInsert
  rw [hk, hv]
  simp only [Page.freeSpace, Page.dataLen]
  constructor
  · intro h
    rw [if_neg (by omega)]
  · intro h
    rw [if_pos (by omega)]

/-- Witness for C6: an exact-fit insert succeeds.  The page holds five
pairs of 614 data bytes each (3070 bytes of data), leaving 1018 free
bytes; the inserted pair needs 8 + 1008 + 2 = 1018 bytes, exactly the
free space. -/
theorem c6_vacant_insert_space_witness :
    ((leafPage [(1, .rep 604 1), (2, .rep 604 1), (3, .rep 604 1),
                (4, .rep 604 1), (5, .rep 604 1)]).vacantInsert
        leafLayout 5 3070 9 (.rep 1008 5)).2 = .ok () := by
  have h := c6_vacant_insert_space leafLayout
    (leafPage [(1, .rep 604 1), (2, .rep 604 1), (3, .rep 604 1),
               (4, .rep 604 1), (5, .rep 604 1)]) 5 3070 9
    (.rep 1008 5) 8 1008 (by decide) (by decide)
  exact h.1 (by decide)

/-! ## Claim C7: the space condition of `OccupiedEntry::replace` -/

/-- C7: `OccupiedEntry::replace` succeeds whenever the growth delta of
the value is at most the page's free space — including an exact fill —
and fails with `OutOfSpace` leaving the page untouched (same page, no
byte written) when the growth exceeds the free space. -/
theorem c7_occupied_replace_space {K V : Type} (lay : Layout K V) (p : Page)
    (idx off kl vl : Nat) (val : V) (nl : Nat)
    (hv : lay.determineValLen val = .ok nl) :
    ((nl : Int) - (vl : Int) ≤ (p.freeSpace lay : Int) →
       (p.occupiedReplace lay idx off kl vl val).2 = .ok ()) ∧
    ((nl : Int) - (vl : Int) > (p.freeSpace lay : Int) →
       p.occupiedReplace lay idx off kl vl val
         = (p, .error (.outOfSpace ((nl : Int) - (vl : Int)).toNat))) := by
  unfold Page.occupiedReplace
  rw [hv]
  simp only [Page.freeSpace, Page.dataLen]
  constructor
  · intro h
    rw [if_neg (by omega)]
  · intro h
    rw [if_pos (by omega)]

/-- Witness for C7: replacing the 2-byte value of the first entry of a
leaf page with 3082 data bytes (1006 free) by a 1008-byte value exactly
fills the page, and succeeds. -/
theorem c7_occupied_replace_space_witness :
    ((leafPage [(9, .rep 2 1), (10, .rep 604 1), (11, .rep 604 1),
                (12, .rep 604 1), (13, .rep 604 1), (14, .rep 604 1)]).occupiedReplace
        leafLayout 0 0 8 2 (.rep 1008 5)).2 = .ok () := by
  have h := c7_occupied_replace_space leafLayout
    (leafPage [(9, .rep 2 1), (10, .rep 604 1), (11, .rep 604 1),
               (12, .rep 604 1), (13, .rep 604 1), (14, .rep 604 1)]) 0 0 8 2
    (.rep 1008 5) 1008 (by decide)
  exact h.1 (by decide)

/-! ## Claim C10: the space condition of `VacantEntry::insert_vectored` -/

/-- C10: `VacantEntry::insert_vectored` has its space check inverted.
Where `insert` rejects with `if needed > free`, `insert_vectored`
rejects with `if needed < free`: inserting a small pair (needed = 11
bytes) into an empty page — which `insert` accepts — fails with
`OutOfSpace(11)`. -/
theorem c10_insert_vectored_inverted_check :
    ((Page.new 1).vacantInsertVectored leafLayout 0 0 5 ⟨1, 7⟩).2
        = .error (.outOfSpace 11) ∧
    ((Page.new 1).vacantInsert leafLayout 0 0 5 ⟨1, 7⟩).2 = .ok () ∧
    8 + 1 + leafLayout.infoSize ≤ (Page.new 1).freeSpace leafLayout := by decide

end CrabDads


namespace CrabDads

/-! ### Arithmetic toolkit for byte regions -/

theorem pow256_pos (a : Nat) : 0 < (256 : Nat) ^ a :=
  Nat.pos_pow_of_pos a (by omega)

theorem add_mul_pow_div (A B k a : Nat) (h : a ≤ k) :
    (A + B * 256 ^ k) / 256 ^ a = A / 256 ^ a + B * 256 ^ (k - a) := by
  have hk : (256 : Nat) ^ k = 256 ^ (k - a) * 256 ^ a := by
    rw [← pow_add]; congr 1; omega
  rw [hk, ← Nat.mul_assoc, Nat.add_mul_div_right _ _ (pow256_pos a)]

theorem add_mul_pow_mod (A B k c : Nat) (h : c ≤ k) :
    (A + B * 256 ^ k) % 256 ^ c = A % 256 ^ c := by
  have hk : (256 : Nat) ^ k = 256 ^ (k - c) * 256 ^ c := by
    rw [← pow_add]; congr 1; omega
  rw [hk, ← Nat.mul_assoc, Nat.add_mul_mod_self_right]

/-- Reading after a division by `256 ^ c` shifts the offset. -/
theorem readBytes_div (x c a b : Nat) :
    readBytes (x / 256 ^ c) a b = readBytes x (c + a) b := by
  unfold readBytes
  rw [Nat.div_div_eq_div_mul, ← pow_add]

/-- Reading inside the kept low `c` bytes ignores the truncation. -/
theorem readBytes_mod (x a b c : Nat) (h : a + b ≤ c) :
    readBytes (x % 256 ^ c) a b = readBytes x a b := by
  unfold readBytes
  conv_rhs => rw [← Nat.mod_add_div' x (256 ^ c)]
  rw [add_mul_pow_div _ _ _ _ (by omega : a ≤ c),
      add_mul_pow_mod _ _ _ _ (by omega : b ≤ c - a)]

/-- The regrouped form of `writeBytes`. -/
theorem writeBytes_eq (d off len src : Nat) :
    writeBytes d off len src
      = d % 256 ^ off
          + (src % 256 ^ len + d / 256 ^ (off + len) * 256 ^ len) * 256 ^ off := by
  unfold writeBytes
  rw [pow_add]
  ring

/-- The bytes below and inside a write stay below `256 ^ (off + len)`. -/
theorem writeBytes_low_lt (d off len src : Nat) :
    d % 256 ^ off + src % 256 ^ len * 256 ^ off < 256 ^ (off + len) := by
  have h1 : d % 256 ^ off < 256 ^ off := Nat.mod_lt _ (pow256_pos off)
  have h2 : src % 256 ^ len < 256 ^ len := Nat.mod_lt _ (pow256_pos len)
  have h3 : src % 256 ^ len * 256 ^ off ≤ (256 ^ len - 1) * 256 ^ off :=
    Nat.mul_le_mul_right _ (by omega)
  have h4 : (256 : Nat) ^ (off + len) = 256 ^ len * 256 ^ off := by
    rw [← pow_add]; congr 1; omega
  have h5 : 0 < (256 : Nat) ^ len := pow256_pos len
  have h6 : (256 ^ len - 1) * 256 ^ off = 256 ^ len * 256 ^ off - 256 ^ off := by
    rw [Nat.sub_mul, Nat.one_mul]
  have h7 : 0 < (256 : Nat) ^ off := pow256_pos off
  have h8 : (256 : Nat) ^ off ≤ 256 ^ len * 256 ^ off :=
    Nat.le_mul_of_pos_left _ h5
  omega

/-- Reading strictly below a write sees the old bytes. -/
theorem readBytes_writeBytes_low (d off len src a b : Nat) (h : a + b ≤ off) :
    readBytes (writeBytes d off len src) a b = readBytes d a b := by
  calc readBytes (writeBytes d off len src) a b
      = readBytes (writeBytes d off len src % 256 ^ off) a b :=
        (readBytes_mod _ a b off h).symm
    _ = readBytes (d % 256 ^ off) a b := by
        rw [writeBytes_eq, add_mul_pow_mod _ _ off off le_rfl,
            Nat.mod_mod_of_dvd d dvd_rfl]
    _ = readBytes d a b := readBytes_mod d a b off h

/-- Reading above a write sees the old bytes. -/
theorem readBytes_writeBytes_high (d off len src a b : Nat) (h : off + len ≤ a) :
    readBytes (writeBytes d off len src) a b = readBytes d a b := by
  unfold readBytes
  have key : writeBytes d off len src / 256 ^ a = d / 256 ^ a := by
    have ha : (256 : Nat) ^ a = 256 ^ (off + len) * 256 ^ (a - (off + len)) := by
      rw [← pow_add]; congr 1; omega
    rw [ha, ← Nat.div_div_eq_div_mul, ← Nat.div_div_eq_div_mul]
    congr 1
    unfold writeBytes
    rw [Nat.add_mul_div_right _ _ (pow256_pos (off + len)),
        Nat.div_eq_of_lt (writeBytes_low_lt d off len src), Nat.zero_add]
  rw [key]

/-- Reading inside a write sees the written bytes. -/
theorem readBytes_writeBytes_mid (d off len src a b : Nat)
    (h1 : off ≤ a) (h2 : a + b ≤ off + len) :
    readBytes (writeBytes d off len src) a b = readBytes src (a - off) b := by
  obtain ⟨t, rfl⟩ : ∃ t, a = off + t := ⟨a - off, by omega⟩
  have ht : off + t - off = t := by omega
  rw [ht]
  unfold readBytes
  have key : writeBytes d off len src / 256 ^ (off + t)
      = (src % 256 ^ len + d / 256 ^ (off + len) * 256 ^ len) / 256 ^ t := by
    rw [pow_add, ← Nat.div_div_eq_div_mul]
    congr 1
    rw [writeBytes_eq]
    rw [Nat.add_mul_div_right _ _ (pow256_pos off),
        Nat.div_eq_of_lt (Nat.mod_lt _ (pow256_pos off)), Nat.zero_add]
  rw [key]
  rw [add_mul_pow_div _ _ _ _ (by omega : t ≤ len),
      add_mul_pow_mod _ _ _ _ (by omega : b ≤ len - t)]
  have hm := readBytes_mod src t b len (by omega)
  unfold readBytes at hm
  rw [hm]

end CrabDads

namespace CrabDads

/-! ### Contents of a merged page -/

section MergedPage

variable {K V : Type} (lay : Layout K V) (pL pH : Page)

/-- Key-value bytes of the lower page survive a merge. -/
theorem mergedPage_data_low
    (hcond : pL.dataLen lay + pH.dataLen lay < CONTENT_SIZE)
    (a b : Nat) (hab : a + b ≤ pL.lowerLen) :
    readBytes (mergedPage lay pL pH).data a b = readBytes pL.data a b := by
  unfold mergedPage
  simp only
  have hd : pL.lowerLen + pH.lowerLen ≤ CONTENT_SIZE
      - pH.upperLen * lay.infoSize - pL.upperLen * lay.infoSize := by
    unfold Page.dataLen at hcond; omega
  rw [readBytes_writeBytes_low _ _ _ _ _ _ (by omega)]
  rw [readBytes_writeBytes_low _ _ _ _ _ _ (by omega)]

/-- Key-value bytes of the higher page land right after the lower
page's in a merge. -/
theorem mergedPage_data_high
    (hcond : pL.dataLen lay + pH.dataLen lay < CONTENT_SIZE)
    (a b : Nat) (hab : a + b ≤ pH.lowerLen) :
    readBytes (mergedPage lay pL pH).data (pL.lowerLen + a) b = readBytes pH.data a b := by
  unfold mergedPage
  simp only
  have hd : pL.lowerLen + pH.lowerLen ≤ CONTENT_SIZE
      - pH.upperLen * lay.infoSize - pL.upperLen * lay.infoSize := by
    unfold Page.dataLen at hcond; omega
  rw [readBytes_writeBytes_low _ _ _ _ _ _ (by omega)]
  rw [readBytes_writeBytes_mid _ _ _ _ _ _ (by omega) (by omega)]
  have ha : pL.lowerLen + a - pL.lowerLen = a := by omega
  rw [ha]
  have h0 : readBytes pH.data 0 pH.lowerLen = pH.data % 256 ^ pH.lowerLen := by
    unfold readBytes
    rw [pow_zero, Nat.div_one]
  rw [h0, readBytes_mod _ _ _ _ hab]

/-- Info records of the lower page survive a merge. -/
theorem mergedPage_info_low
    (hcond : pL.dataLen lay + pH.dataLen lay < CONTENT_SIZE)
    (i : Nat) (hi : i < pL.upperLen) :
    (mergedPage lay pL pH).infoAt lay i = pL.infoAt lay i := by
  unfold mergedPage Page.infoAt
  simp only
  have hs1 : (i + 1) * lay.infoSize ≤ pL.upperLen * lay.infoSize :=
    Nat.mul_le_mul_right _ (by omega)
  have hd : pL.lowerLen + pH.lowerLen + pL.upperLen * lay.infoSize
      + pH.upperLen * lay.infoSize < CONTENT_SIZE := by
    unfold Page.dataLen at hcond; omega
  rw [readBytes_writeBytes_high _ _ _ _ _ _ (by omega)]
  rw [readBytes_writeBytes_high _ _ _ _ _ _ (by omega)]


/-- Info records of the higher page land right below the lower page's in
a merge. -/
theorem mergedPage_info_high
    (hcond : pL.dataLen lay + pH.dataLen lay < CONTENT_SIZE)
    (t : Nat) (ht : t < pH.upperLen) :
    (mergedPage lay pL pH).infoAt lay (pL.upperLen + t) = pH.infoAt lay t := by
  unfold mergedPage Page.infoAt
  simp only
  have hC : CONTENT_SIZE = 4088 := rfl
  have hs0 : lay.infoSize ≤ (t + 1) * lay.infoSize := by
    calc lay.infoSize = 1 * lay.infoSize := (Nat.one_mul _).symm
    _ ≤ (t + 1) * lay.infoSize := Nat.mul_le_mul_right _ (by omega)
  have hs1 : (t + 1) * lay.infoSize ≤ pH.upperLen * lay.infoSize :=
    Nat.mul_le_mul_right _ (by omega)
  have hs2 : (pL.upperLen + t + 1) * lay.infoSize
      = pL.upperLen * lay.infoSize + (t + 1) * lay.infoSize := by
    rw [← Nat.add_mul]; rfl
  have hd : pL.lowerLen + pH.lowerLen + pL.upperLen * lay.infoSize
      + pH.upperLen * lay.infoSize < CONTENT_SIZE := by
    unfold Page.dataLen at hcond; omega
  rw [readBytes_writeBytes_mid _ _ _ _ _ _ (by omega) (by omega)]
  have hoff : CONTENT_SIZE - (pL.upperLen + t + 1) * lay.infoSize
      - (CONTENT_SIZE - pH.upperLen * lay.infoSize - pL.upperLen * lay.infoSize)
      = pH.upperLen * lay.infoSize - (t + 1) * lay.infoSize := by omega
  rw [hoff]
  have h0 : readBytes pH.data (CONTENT_SIZE - pH.upperLen * lay.infoSize)
        (pH.upperLen * lay.infoSize)
      = pH.data / 256 ^ (CONTENT_SIZE - pH.upperLen * lay.infoSize)
          % 256 ^ (pH.upperLen * lay.infoSize) := rfl
  rw [h0, readBytes_mod _ _ _ _ (by omega), readBytes_div]
  congr 1
  omega

end MergedPage

/-! ### Decoding a page region by region -/

theorem entriesRawGo_zero {K V : Type} (lay : Layout K V) (p : Page) (off i : Nat) :
    p.entriesRawGo lay 0 off i
      = if off = p.lowerLen then .ok [] else .error .dataCorruption := rfl

theorem entriesRawGo_succ {K V : Type} (lay : Layout K V) (p : Page) (n off i : Nat) :
    p.entriesRawGo lay (n + 1) off i
      = (let info := p.infoAt lay i
         let kl := lay.keyLenOf info
         let vl := lay.valLenOf info
         if off + kl + vl > p.lowerLen then .error .dataCorruption
         else do
           let rest ← p.entriesRawGo lay n (off + kl + vl) (i + 1)
           .ok ((⟨kl, readBytes p.data off kl⟩,
                 ⟨vl, readBytes p.data (off + kl) vl⟩) :: rest)) := rfl

/-- Decoding `n` entries that a reference page `p` decodes successfully
transfers to any page `q` that agrees with `p` on those info records and
on the key-value bytes below `p.lowerLen`, and continues decoding from
`p.lowerLen` afterwards. -/
theorem entriesRawGo_prefix {K V : Type} (lay : Layout K V) (p q : Page)
    (hdata : ∀ a b, a + b ≤ p.lowerLen → readBytes q.data a b = readBytes p.data a b)
    (hle : p.lowerLen ≤ q.lowerLen) :
    ∀ n off i es m, p.entriesRawGo lay n off i = .ok es →
      (∀ j, j < n → q.infoAt lay (i + j) = p.infoAt lay (i + j)) →
      q.entriesRawGo lay (n + m) off i
        = (q.entriesRawGo lay m p.lowerLen (i + n)).map (fun rest => es ++ rest)
  | 0, off, i, es, m => by
    intro hp hinfo
    rw [entriesRawGo_zero] at hp
    by_cases hoff : off = p.lowerLen
    · rw [hoff] at hp ⊢
      rw [if_pos rfl] at hp
      injection hp with hes
      subst hes
      simp only [Nat.zero_add, Nat.add_zero]
      cases q.entriesRawGo lay m p.lowerLen i <;> simp [Except.map, Except.bind, bind]
    · rw [if_neg hoff] at hp
      exact absurd hp (by simp)
  | n + 1, off, i, es, m => by
    intro hp hinfo
    rw [entriesRawGo_succ] at hp
    by_cases hbound : off + lay.keyLenOf (p.infoAt lay i) + lay.valLenOf (p.infoAt lay i)
        > p.lowerLen
    · rw [if_pos hbound] at hp
      exact absurd hp (by simp)
    · rw [if_neg hbound] at hp
      cases hrest : p.entriesRawGo lay n
          (off + lay.keyLenOf (p.infoAt lay i) + lay.valLenOf (p.infoAt lay i)) (i + 1) with
      | error e => rw [hrest] at hp; exact absurd hp (by simp [Except.bind, bind])
      | ok rest =>
        rw [hrest] at hp
        injection hp with hes
        subst hes
        have hq0 : q.infoAt lay i = p.infoAt lay i := by
          have h := hinfo 0 (by omega)
          simpa using h
        have hstep : n + 1 + m = (n + m) + 1 := by omega
        rw [hstep, entriesRawGo_succ]
        simp only [hq0]
        rw [if_neg (by omega)]
        have hih := entriesRawGo_prefix lay p q hdata hle n
          (off + lay.keyLenOf (p.infoAt lay i) + lay.valLenOf (p.infoAt lay i))
          (i + 1) rest m hrest (fun j hj => by
            have h := hinfo (1 + j) (by omega)
            rw [show i + (1 + j) = i + 1 + j by omega] at h
            exact h)
        rw [hih]
        have hk : readBytes q.data off (lay.keyLenOf (p.infoAt lay i))
            = readBytes p.data off (lay.keyLenOf (p.infoAt lay i)) :=
          hdata _ _ (by omega)
        have hv : readBytes q.data (off + lay.keyLenOf (p.infoAt lay i))
              (lay.valLenOf (p.infoAt lay i))
            = readBytes p.data (off + lay.keyLenOf (p.infoAt lay i))
              (lay.valLenOf (p.infoAt lay i)) :=
          hdata _ _ (by omega)
        rw [hk, hv]
        rw [show i + 1 + n = i + (n + 1) by omega]
        cases q.entriesRawGo lay m p.lowerLen (i + (n + 1)) <;>
          simp [Except.map, Except.bind, bind]

/-- Decoding entries of a reference page `p` transfers to a page `q`
holding the same bytes shifted `shift` bytes up in the key-value array
and `base` records over in the info array, when `q`'s key-value array
ends exactly `shift` bytes after `p`'s. -/
theorem entriesRawGo_shift {K V : Type} (lay : Layout K V) (p q : Page) (shift base : Nat)
    (hdata : ∀ a b, a + b ≤ p.lowerLen →
       readBytes q.data (shift + a) b = readBytes p.data a b)
    (hlow : q.lowerLen = shift + p.lowerLen) :
    ∀ n off i es, p.entriesRawGo lay n off i = .ok es →
      (∀ j, j < n → q.infoAt lay (base + i + j) = p.infoAt lay (i + j)) →
      q.entriesRawGo lay n (shift + off) (base + i) = .ok es
  | 0, off, i, es => by
    intro hp hinfo
    rw [entriesRawGo_zero] at hp ⊢
    by_cases hoff : off = p.lowerLen
    · rw [hoff] at hp ⊢
      rw [if_pos rfl] at hp
      rw [if_pos (by omega)]
      exact hp
    · rw [if_neg hoff] at hp
      exact absurd hp (by simp)
  | n + 1, off, i, es => by
    intro hp hinfo
    rw [entriesRawGo_succ] at hp
    by_cases hbound : off + lay.keyLenOf (p.infoAt lay i) + lay.valLenOf (p.infoAt lay i)
        > p.lowerLen
    · rw [if_pos hbound] at hp
      exact absurd hp (by simp)
    · rw [if_neg hbound] at hp
      cases hrest : p.entriesRawGo lay n
          (off + lay.keyLenOf (p.infoAt lay i) + lay.valLenOf (p.infoAt lay i)) (i + 1) with
      | error e => rw [hrest] at hp; exact absurd hp (by simp [Except.bind, bind])
      | ok rest =>
        rw [hrest] at hp
        have hq0 : q.infoAt lay (base + i) = p.infoAt lay i := by
          have h := hinfo 0 (by omega)
          simpa using h
        rw [entriesRawGo_succ]
        simp only [hq0]
        rw [if_neg (by omega)]
        have hih := entriesRawGo_shift lay p q shift base hdata hlow n
          (off + lay.keyLenOf (p.infoAt lay i) + lay.valLenOf (p.infoAt lay i))
          (i + 1) rest hrest (fun j hj => by
            have h := hinfo (1 + j) (by omega)
            rw [show base + i + (1 + j) = base + (i + 1) + j by omega,
                show i + (1 + j) = i + 1 + j by omega] at h
            exact h)
        rw [show shift + off + lay.keyLenOf (p.infoAt lay i)
              + lay.valLenOf (p.infoAt lay i)
            = shift + (off + lay.keyLenOf (p.infoAt lay i)
              + lay.valLenOf (p.infoAt lay i)) by omega,
            show base + i + 1 = base + (i + 1) by omega]
        rw [hih]
        have hk : readBytes q.data (shift + off) (lay.keyLenOf (p.infoAt lay i))
            = readBytes p.data off (lay.keyLenOf (p.infoAt lay i)) :=
          hdata _ _ (by omega)
        have hv : readBytes q.data (shift + off + lay.keyLenOf (p.infoAt lay i))
              (lay.valLenOf (p.infoAt lay i))
            = readBytes p.data (off + lay.keyLenOf (p.infoAt lay i))
              (lay.valLenOf (p.infoAt lay i)) := by
          have h := hdata (off + lay.keyLenOf (p.infoAt lay i))
            (lay.valLenOf (p.infoAt lay i)) (by omega)
          rw [show shift + (off + lay.keyLenOf (p.infoAt lay i))
              = shift + off + lay.keyLenOf (p.infoAt lay i) by omega] at h
          exact h
        rw [hk, hv, ← hp]

end CrabDads

namespace CrabDads

/-- C5 (amended): for pages whose key-value data and info arrays decode
successfully, `balance` returns `Merged` — containing all entries of the
lower page followed by all entries of the higher page — exactly when
`data_len(L) + data_len(H)` is strictly less than the 4088-byte page
content size (no trailer addend); otherwise the result is never
`Merged`. -/
theorem c5_balance_merged_iff {K V : Type} (lay : Layout K V) (pL pH : Page)
    (el eh : List (ByteSeq × ByteSeq))
    (hel : pL.entriesRaw lay = .ok el) (heh : pH.entriesRaw lay = .ok eh) :
    (pL.dataLen lay + pH.dataLen lay < CONTENT_SIZE →
       Page.balance lay pL pH = .ok (.merged (mergedPage lay pL pH)) ∧
       (mergedPage lay pL pH).entriesRaw lay = .ok (el ++ eh)) ∧
    (¬ pL.dataLen lay + pH.dataLen lay < CONTENT_SIZE →
       ∀ m, Page.balance lay pL pH ≠ .ok (.merged m)) := by
  constructor
  · intro hcond
    refine ⟨by unfold Page.balance; rw [if_pos hcond], ?_⟩
    have hup : (mergedPage lay pL pH).upperLen = pL.upperLen + pH.upperLen := rfl
    have hlo : (mergedPage lay pL pH).lowerLen = pL.lowerLen + pH.lowerLen := rfl
    have h1 := entriesRawGo_prefix lay pL (mergedPage lay pL pH)
      (fun a b hab => mergedPage_data_low lay pL pH hcond a b hab)
      (by rw [hlo]; omega)
      pL.upperLen 0 0 el pH.upperLen hel
      (fun j hj => by
        have h := mergedPage_info_low lay pL pH hcond (0 + j) (by omega)
        exact h)
    have h2 := entriesRawGo_shift lay pH (mergedPage lay pL pH)
      pL.lowerLen pL.upperLen
      (fun a b hab => mergedPage_data_high lay pL pH hcond a b hab)
      hlo
      pH.upperLen 0 0 eh heh
      (fun j hj => by
        have h := mergedPage_info_high lay pL pH hcond (0 + j) (by omega)
        rw [show pL.upperLen + 0 + j = pL.upperLen + (0 + j) by omega]
        exact h)
    rw [show pL.lowerLen + 0 = pL.lowerLen by omega,
        show pL.upperLen + 0 = pL.upperLen by omega] at h2
    unfold Page.entriesRaw
    rw [hup, h1]
    rw [show 0 + pL.upperLen = pL.upperLen by omega, h2]
    rfl
  · intro hcond m
    unfold Page.balance
    rw [if_neg hcond]
    by_cases hgt : pL.dataLen lay > pH.dataLen lay
    · rw [if_pos hgt]
      cases pL.findCutpoint lay ((pL.dataLen lay - pH.dataLen lay) / 2)
          (pH.freeSpace lay) <;> simp
    · rw [if_neg hgt]
      cases pH.findCutpoint lay ((pH.dataLen lay - pL.dataLen lay) / 2)
          (pL.freeSpace lay) <;> simp

/-- Witness for C5 (amended): two one-entry leaf pages merge into the
page holding both entries in order. -/
theorem c5_balance_merged_iff_witness :
    Page.balance leafLayout (leafPage [(1, .rep 2 9)]) (leafPage [(2, .rep 3 9)])
        = .ok (.merged (mergedPage leafLayout (leafPage [(1, .rep 2 9)])
                         (leafPage [(2, .rep 3 9)]))) ∧
    (mergedPage leafLayout (leafPage [(1, .rep 2 9)])
        (leafPage [(2, .rep 3 9)])).entriesRaw leafLayout
        = .ok ([(⟨8, 1⟩, ⟨2, repByte 2 9⟩)] ++ [(⟨8, 2⟩, ⟨3, repByte 3 9⟩)]) := by
  have h := c5_balance_merged_iff leafLayout (leafPage [(1, .rep 2 9)])
    (leafPage [(2, .rep 3 9)])
    [(⟨8, 1⟩, ⟨2, repByte 2 9⟩)] [(⟨8, 2⟩, ⟨3, repByte 3 9⟩)]
    (by decide) (by decide)
  exact h.1 (by decide)

end CrabDads

namespace CrabDads

/-! ## The reader of `btree/reader.rs`

Pages are fetched through `RawRead`; a snapshot is a finite map from
page numbers to pages.  `PageIter` of `page_map.rs` is a pair of
cursors: the info cursor (front and back entry indices) and the
key-value cursor (front and back byte offsets). -/

/-- A readable snapshot: page number to page. -/
def ReadMem := List (Nat × Page)

/-- `RawRead::load_page`: absent pages surface a storage error. -/
def ReadMem.load (mem : ReadMem) (n : Nat) : Except Error Page :=
  match mem.lookup n with
  | some p => .ok p
  | none => .error .storage

/-- A loaded tree page (`ReadPage` of `reader.rs`). -/
inductive RPage where
  | branch (p : Page)
  | leaf (p : Page)
  deriving DecidableEq, Repr

/-- `ReadPage::try_load`: load the page, test the low bit of the type
byte, and validate the trailer lengths (`PageMap::from_page`). -/
def tryLoadRead (mem : ReadMem) (n : Nat) : Except Error RPage := do
  let p ← mem.load n
  if p.pageType &&& 1 = 1 then
    if p.lengthsOk leafLayout then .ok (.leaf p) else .error .dataCorruption
  else
    if p.lengthsOk branchLayout then .ok (.branch p) else .error .dataCorruption

/-- The state of a `PageIter`: entries `[fi, bi)` remain; `fOff` and
`bOff` are the front and back of the key-value cursor. -/
structure PIter where
  page : Page
  fi : Nat
  bi : Nat
  fOff : Nat
  bOff : Nat
  deriving DecidableEq, Repr

/-- `PageMap::iter`. -/
def Page.iter (p : Page) : PIter :=
  ⟨p, 0, p.upperLen, 0, p.lowerLen⟩

/-- `PageIter::next` (via `next_internal`): take the next info record
from the front, then the next pair from the key-value cursor, checking
the cursor bound; at the end, `next_none` checks both cursors are
exhausted together.  The info cursor advances even when the key-value
bound check fails, as in the source. -/
def PIter.next {K V : Type} (lay : Layout K V) (it : PIter) :
    Except Error (Option (K × ByteSeq)) × PIter :=
  if it.fi = it.bi then
    if it.fOff = it.bOff then (.ok none, it) else (.error .dataCorruption, it)
  else
    let info := it.page.infoAt lay it.fi
    let kl := lay.keyLenOf info
    let vl := lay.valLenOf info
    if it.fOff + kl + vl > it.bOff then
      (.error .dataCorruption, { it with fi := it.fi + 1 })
    else
      (.ok (some (lay.readKey info ⟨kl, readBytes it.page.data it.fOff kl⟩,
                  ⟨vl, readBytes it.page.data (it.fOff + kl) vl⟩)),
       { it with fi := it.fi + 1, fOff := it.fOff + kl + vl })

/-- `PageIter::next_back` (via `next_back_internal`). -/
def PIter.nextBack {K V : Type} (lay : Layout K V) (it : PIter) :
    Except Error (Option (K × ByteSeq)) × PIter :=
  if it.fi = it.bi then
    if it.fOff = it.bOff then (.ok none, it) else (.error .dataCorruption, it)
  else
    let info := it.page.infoAt lay (it.bi - 1)
    let kl := lay.keyLenOf info
    let vl := lay.valLenOf info
    if it.bOff < it.fOff + kl + vl then
      (.error .dataCorruption, { it with bi := it.bi - 1 })
    else
      (.ok (some (lay.readKey info ⟨kl, readBytes it.page.data (it.bOff - kl - vl) kl⟩,
                  ⟨vl, readBytes it.page.data (it.bOff - vl) vl⟩)),
       { it with bi := it.bi - 1, bOff := it.bOff - kl - vl })

/-- A range bound (`core::ops::Bound`) over u64 keys. -/
inductive RBound where
  | unbounded
  | included (b : Nat)
  | excluded (b : Nat)
  deriving DecidableEq, Repr

/-- The front-trimming loop of `trim_leaf` in `reader.rs`: advance a
peek clone; stop (keeping `iter`) as soon as a key satisfies the start
bound, otherwise commit the peek position to `iter`. -/
def trimLeafFrontGo {V : Type} (lay : Layout Nat V) (lo : RBound) :
    Nat → PIter → PIter → Except Error PIter
  | 0, it, _ => .ok it
  | fuel + 1, it, peek =>
    match peek.next lay with
    | (.error e, _) => .error e
    | (.ok none, _) => .ok it
    | (.ok (some kv), peek2) =>
      match lo with
      | .unbounded => .ok it
      | .excluded b =>
          if kv.1 > b then .ok it else trimLeafFrontGo lay lo fuel peek2 peek2
      | .included b =>
          if kv.1 ≥ b then .ok it else trimLeafFrontGo lay lo fuel peek2 peek2

/-- The back-trimming loop of `trim_leaf` in `reader.rs`.  Note that it,
too, advances a *forward* peek clone and commits it to `iter`: for an
`Included` end bound it drops every leading entry whose key is below the
bound, and for an `Excluded` end bound whose value exceeds the first key
it stops immediately, never trimming the back. -/
def trimLeafBackGo {V : Type} (lay : Layout Nat V) (hi : RBound) :
    Nat → PIter → PIter → Except Error PIter
  | 0, it, _ => .ok it
  | fuel + 1, it, peek =>
    match peek.next lay with
    | (.error e, _) => .error e
    | (.ok none, _) => .ok it
    | (.ok (some kv), peek2) =>
      match hi with
      | .unbounded => .ok it
      | .excluded b =>
          if kv.1 < b then .ok it else trimLeafBackGo lay hi fuel peek2 peek2
      | .included b =>
          if kv.1 ≥ b then .ok it else trimLeafBackGo lay hi fuel peek2 peek2

/-- `trim_leaf` of `reader.rs`. -/
def trimLeaf {V : Type} (lay : Layout Nat V) (lo hi : RBound) (it : PIter) :
    Except Error PIter := do
  let it ← trimLeafFrontGo lay lo (it.page.upperLen + 1) it it
  trimLeafBackGo lay hi (it.page.upperLen + 1) it it

/-- `BTreeRead::range` for a tree whose root page is a leaf: trim the
leaf iterator to the range and serve the iteration from it
(`BTreeIterState::Leaf`). -/
def rangeRootLeaf (mem : ReadMem) (root : Nat) (lo hi : RBound) :
    Except Error PIter := do
  let rp ← tryLoadRead mem root
  match rp with
  | .leaf l => trimLeaf leafLayout lo hi l.iter
  | .branch _ => .error .invalidState

/-- Forward collection of a `BTreeIter` in the single-leaf state: its
`next` is the leaf iterator's `next`. -/
def leafIterCollect {K V : Type} (lay : Layout K V) :
    Nat → PIter → Except Error (List (K × ByteSeq))
  | 0, _ => .ok []
  | fuel + 1, it =>
    match it.next lay with
    | (.error e, _) => .error e
    | (.ok none, _) => .ok []
    | (.ok (some kv), it2) => do
        let rest ← leafIterCollect lay fuel it2
        .ok (kv :: rest)

/-- The descent of `BTreeRead::get`: in a branch, iterate entries in
reverse and follow the last child whose separator is ≤ key; in a leaf,
scan forward for the key. -/
def readerGetLeafScan (l : PIter) (key : Nat) :
    Nat → Except Error (Option ByteSeq)
  | 0 => .ok none
  | fuel + 1 =>
    match l.next leafLayout with
    | (.error e, _) => .error e
    | (.ok none, _) => .ok none
    | (.ok (some kv), it2) =>
      if kv.1 = key then .ok (some kv.2)
      else if kv.1 < key then readerGetLeafScan it2 key fuel
      else .ok none

def readerGetBranchScan (b : PIter) (key : Nat) :
    Nat → Except Error (Option Nat)
  | 0 => .ok none
  | fuel + 1 =>
    match b.nextBack branchLayout with
    | (.error e, _) => .error e
    | (.ok none, _) => .ok none
    | (.ok (some kv), it2) =>
      if kv.1 ≤ key then .ok (some kv.2.bytes)
      else readerGetBranchScan it2 key fuel

/-- `BTreeRead::get`, depth-capped at 64. -/
def readerGetGo (mem : ReadMem) (key : Nat) :
    Nat → RPage → Except Error (Option ByteSeq)
  | 0, _ => .error .dataCorruption
  | fuel + 1, .branch b => do
    let child ← readerGetBranchScan b.iter key (b.upperLen + 1)
    match child with
    | none => .ok none
    | some c => do
        let rp ← tryLoadRead mem c
        readerGetGo mem key fuel rp
  | _ + 1, .leaf l => readerGetLeafScan l.iter key (l.upperLen + 1)

/-- `BTreeRead::get` from the root page number. -/
def readerGet (mem : ReadMem) (root key : Nat) : Except Error (Option ByteSeq) := do
  let rp ← tryLoadRead mem root
  readerGetGo mem key 64 rp

end CrabDads

namespace CrabDads

/-! ## Claim C2: range iteration yields exactly the in-range pairs -/

/-- A one-leaf tree holding keys 10 and 20 (root page 1). -/
def c2Mem : ReadMem := [(1, leafPage [(10, .rep 2 7), (20, .rep 3 9)])]

/-- C2: `BTreeRead::range` does not emit exactly the in-range pairs.
On a single-leaf tree holding keys 10 and 20 (both reachable by `get`),
the range `(unbounded, included 20)` omits the in-range key 10, and the
range `(unbounded, excluded 15)` emits the out-of-range key 20: the
back-trimming loop of `trim_leaf` advances a *forward* peek cursor, so
an inclusive end bound eats leading entries below the bound and an
exclusive end bound above the first key never trims the back at all. -/
theorem c2_range_trim_counterexample :
    readerGet c2Mem 1 10 = .ok (some (ByteSeq.rep 2 7)) ∧
    readerGet c2Mem 1 20 = .ok (some (ByteSeq.rep 3 9)) ∧
    (do leafIterCollect leafLayout 10 (← rangeRootLeaf c2Mem 1 .unbounded (.included 20)))
      = .ok [(20, ByteSeq.rep 3 9)] ∧
    (do leafIterCollect leafLayout 10 (← rangeRootLeaf c2Mem 1 .unbounded (.excluded 15)))
      = .ok [(10, ByteSeq.rep 2 7), (20, ByteSeq.rep 3 9)] := by decide

end CrabDads

namespace CrabDads

/-! ## The writer of `btree/writer.rs`

The pager follows the `RawWrite` contract (and the `BasicDbWrite` test
pager of `btree/mod.rs`): it holds the clean (committed) pages, the
dirty pages of the current transaction, and the next free page number.
`load_mut_page` returns a dirty page in place, or — for a clean page —
a freshly allocated dirty page plus the old contents to copy from.
The tree is instantiated as in the crate's tests: `LayoutU64U64`
branches and `LayoutU64Var` leaves. -/

/-- Replace (or add) an entry of an association list. -/
def updateAssoc (l : List (Nat × Page)) (n : Nat) (p : Page) : List (Nat × Page) :=
  (n, p) :: l.filter (fun e => e.1 ≠ n)

/-- The pager state. -/
structure Pager where
  clean : List (Nat × Page)
  dirty : List (Nat × Page)
  next : Nat
  deriving DecidableEq, Repr

/-- `RawWrite::allocate_page`: a fresh dirty page (zeroed memory). -/
def Pager.allocatePage (pg : Pager) : Pager × Nat :=
  ({ pg with dirty := updateAssoc pg.dirty pg.next ⟨0, 0, 0, 0⟩, next := pg.next + 1 },
   pg.next)

/-- Store a dirty page's contents (a write through a `PageMapMut`). -/
def Pager.setDirty (pg : Pager) (n : Nat) (p : Page) : Pager :=
  { pg with dirty := updateAssoc pg.dirty n p }

/-- `RawWrite::deallocate_page` (as in `BasicDbWrite`): a dirty page is
dropped; a clean page is merely scheduled for disposal after commit. -/
def Pager.deallocate (pg : Pager) (n : Nat) : Pager :=
  { pg with dirty := pg.dirty.filter (fun e => e.1 ≠ n) }

/-- A loaded tree page for writing (`WritePage` of `writer.rs`). -/
inductive WPage where
  | branch (p : Page)
  | leaf (p : Page)
  deriving DecidableEq, Repr

/-- `WritePage::try_load`: a dirty page is used in place
(`LoadMutPage::Dirty`); a clean page is validated, copied into a freshly
allocated page, and its old number deallocated (`LoadMutPage::Clean`),
returning the new page number. -/
def tryLoadW (pg : Pager) (n : Nat) : Except Error (Pager × WPage × Option Nat) :=
  match pg.dirty.lookup n with
  | some d =>
    if d.pageType &&& 1 = 1 then
      if d.lengthsOk leafLayout then .ok (pg, .leaf d, none)
      else .error .dataCorruption
    else
      if d.lengthsOk branchLayout then .ok (pg, .branch d, none)
      else .error .dataCorruption
  | none =>
    match pg.clean.lookup n with
    | none => .error .storage
    | some r =>
      let a := pg.allocatePage
      if r.pageType &&& 1 = 1 then
        if r.lengthsOk leafLayout then
          let w := r.copyTo leafLayout
          .ok ((a.1.setDirty a.2 w).deallocate n, .leaf w, some a.2)
        else .error .dataCorruption
      else
        if r.lengthsOk branchLayout then
          let w := r.copyTo branchLayout
          .ok ((a.1.setDirty a.2 w).deallocate n, .branch w, some a.2)
        else .error .dataCorruption

/-- The writer handle `BTreeWrite`: the pager, the stack of branch pages
descended through (page numbers, root first), the current leaf, and the
root page number. -/
structure TreeState where
  pager : Pager
  branches : List Nat
  leaf : Option Nat
  root : Nat
  deriving DecidableEq, Repr

/-- Fetch a page the tree holds a write handle to (always dirty). -/
def TreeState.getPage (s : TreeState) (n : Nat) : Except Error Page :=
  match s.pager.dirty.lookup n with
  | some p => .ok p
  | none => .error .invalidState

/-- `PageMap::iter().next()` — the first entry of a page. -/
def Page.firstEntry {K V : Type} (lay : Layout K V) (p : Page) :
    Except Error (Option (K × ByteSeq)) :=
  (p.iter.next lay).1

/-- Update the child page number stored in entry `idx` of a branch page
(the `*val = write_page_num` write through the `&mut u64` that
`iter_mut` handed out; a branch pair is 8 key bytes and 8 value bytes). -/
def setBranchValue (p : Page) (idx v : Nat) : Page :=
  { p with data := writeBytes p.data (16 * idx + 8) 8 v }

/-- `BTreeWrite::load`. -/
def treeLoad (pg : Pager) (page : Nat) : Except Error (TreeState × Option Nat) := do
  let r ← tryLoadW pg page
  let rootNum := r.2.2.getD page
  match r.2.1 with
  | .branch _ =>
      .ok ({ pager := r.1, branches := [rootNum], leaf := none, root := rootNum }, r.2.2)
  | .leaf _ =>
      .ok ({ pager := r.1, branches := [], leaf := some rootNum, root := rootNum }, r.2.2)

/-- The reverse scan picking the child to descend into (`entry`'s
`for res in branch_page.iter_mut().rev()` loop): the last entry whose
key is ≤ the target, else the page's first entry; `none` when the branch
is empty.  Yields the entry index and the stored child page number. -/
def branchSeekGo (key : Nat) :
    Nat → PIter → Option (Nat × Nat) → Except Error (Option (Nat × Nat))
  | 0, _, v => .ok v
  | fuel + 1, it, v =>
    match it.nextBack branchLayout with
    | (.error e, _) => .error e
    | (.ok none, _) => .ok v
    | (.ok (some kv), it2) =>
      let v2 := some (it2.bi, kv.2.bytes)
      if kv.1 ≤ key then .ok v2 else branchSeekGo key fuel it2 v2

def branchSeek (b : Page) (key : Nat) : Except Error (Option (Nat × Nat)) :=
  branchSeekGo key (b.upperLen + 1) b.iter none

/-- The position of an entry handed back by `BTreeWrite::entry`. -/
inductive TEntry where
  | occupied (leafNum idx off kl vl : Nat)
  | vacant (leafNum idx off : Nat)
  deriving DecidableEq, Repr

/-- The descent loop of `BTreeWrite::entry`: in a branch, pick the
child, load it for writing (patching the branch entry if the pager
relocated the page), remember the branch on the stack, and recurse; in a
leaf, run the page map's entry scan. -/
def treeEntryGo (key : Nat) :
    Nat → TreeState → WPage → Nat → TreeState × Except Error TEntry
  | 0, s, _, _ => (s, .error .dataCorruption)
  | _ + 1, s, .leaf l, num =>
    match l.entryScan leafLayout key with
    | .error e => (s, .error e)
    | .ok (.occupied idx off kl vl) => (s, .ok (.occupied num idx off kl vl))
    | .ok (.vacant idx off) => (s, .ok (.vacant num idx off))
  | fuel + 1, s, .branch b, num =>
    match branchSeek b key with
    | .error e => (s, .error e)
    | .ok none => (s, .error .dataCorruption)
    | .ok (some (idx, child)) =>
      match tryLoadW s.pager child with
      | .error e => (s, .error e)
      | .ok (pg2, wp, repl) =>
        let b2 := match repl with
          | some wpn => setBranchValue b idx wpn
          | none => b
        let child2 := repl.getD child
        let s2 := { s with pager := pg2.setDirty num b2,
                           branches := s.branches ++ [num] }
        treeEntryGo key fuel s2 wp child2

/-- `BTreeWrite::entry`: truncate the prior descent, take the root page
out of the handle, and descend. -/
def treeEntry (s : TreeState) (key : Nat) : TreeState × Except Error TEntry :=
  let s0 := { s with branches := s.branches.take 1 }
  match s0.leaf with
  | some l =>
    let s1 := { s0 with leaf := none }
    match s1.getPage l with
    | .error e => (s1, .error e)
    | .ok p => treeEntryGo key 65 s1 (.leaf p) l
  | none =>
    match s0.branches.getLast? with
    | some b =>
      let s1 := { s0 with branches := s0.branches.dropLast }
      match s1.getPage b with
      | .error e => (s1, .error e)
      | .ok p => treeEntryGo key 65 s1 (.branch p) b
    | none =>
      match tryLoadW s0.pager s0.root with
      | .error e => (s0, .error e)
      | .ok (pg2, wp, _) =>
        let s1 := { s0 with pager := pg2 }
        treeEntryGo key 65 s1 wp s0.root

end CrabDads

namespace CrabDads

/-! ### The writer's tree-maintenance routines

Each routine threads the `TreeState` explicitly and returns it next to
the `Result`.  The self-recursive routines (`branch_insert`,
`replace_branch_first`, `balance`) carry a fuel argument standing in for
the call stack; the fuel is always instantiated beyond any depth a
4096-byte-page tree can reach, and exhausting it surfaces
`invalidState`. -/

/-- `PageMap::get_pair`: forward scan, stopping early at the first key
greater than the target. -/
def Page.getPairGo {K V : Type} (lay : Layout K V) (key : K) :
    Nat → PIter → Except Error (Option (K × ByteSeq))
  | 0, _ => .ok none
  | fuel + 1, it =>
    match it.next lay with
    | (.error e, _) => .error e
    | (.ok none, _) => .ok none
    | (.ok (some kv), it2) =>
      if lay.keyEq kv.1 key then .ok (some kv)
      else if lay.keyLt kv.1 key then Page.getPairGo lay key fuel it2
      else .ok none

def Page.getPair {K V : Type} (lay : Layout K V) (p : Page) (key : K) :
    Except Error (Option (K × ByteSeq)) :=
  Page.getPairGo lay key (p.upperLen + 1) p.iter

/-- `page::OccupiedEntry::first` is absent from the snapshot's
`page/mod.rs`; modelled from the spec: an entry is the first of its page
exactly when its index is 0. -/
def entryFirst (idx : Nat) : Bool := idx == 0

/-- The final insertion step of `branch_insert`: pick the lower or the
higher of the two split halves by comparing the key against the
separator, and insert there (which must find a vacancy and must fit). -/
def branchInsertTail (s : TreeState) (key pval k2 oldNum newNum : Nat) :
    TreeState × Except Error Nat :=
  let target := if key < k2 then oldNum else newNum
  match s.getPage target with
  | .error e => (s, .error e)
  | .ok p =>
    match p.entryScan branchLayout key with
    | .error e => (s, .error e)
    | .ok (.occupied _ _ _ _) => (s, .error .dataCorruption)
    | .ok (.vacant idx off) =>
      match p.vacantInsert branchLayout idx off key pval with
      | (_, .error e) => (s, .error e)
      | (p2, .ok _) => ({ s with pager := s.pager.setDirty target p2 }, .ok target)

/-- `BTreeWrite::branch_insert`: insert a separator/page pair into the
branch page `bnum`; on `OutofSpace`, split the branch, recurse into the
parent (or promote a new root in place, keeping the root page number by
copying the old root into a fresh page), then insert into whichever half
the key belongs to.  Returns the page number holding the inserted pair. -/
def branchInsert (key pval : Nat) :
    Nat → TreeState → Nat → TreeState × Except Error Nat
  | 0, s, _ => (s, .error .invalidState)
  | fuel + 1, s, bnum =>
    match s.getPage bnum with
    | .error e => (s, .error e)
    | .ok p =>
      match p.entryScan branchLayout key with
      | .error e => (s, .error e)
      | .ok (.occupied _ _ _ _) => (s, .error .dataCorruption)
      | .ok (.vacant idx off) =>
        match p.vacantInsert branchLayout idx off key pval with
        | (p2, .ok _) => ({ s with pager := s.pager.setDirty bnum p2 }, .ok bnum)
        | (_, .error (.outOfSpace _)) =>
          let a1 := s.pager.allocatePage
          let newNum := a1.2
          match p.splitTo branchLayout with
          | .error e => ({ s with pager := a1.1 }, .error e)
          | .ok (selfP, newP) =>
            let pg1 := (a1.1.setDirty bnum selfP).setDirty newNum newP
            match newP.firstEntry branchLayout with
            | .error e => ({ s with pager := pg1 }, .error e)
            | .ok none => ({ s with pager := pg1 }, .error .invalidState)
            | .ok (some (k2, _)) =>
              match s.branches.getLast? with
              | none =>
                let a2 := pg1.allocatePage
                let copyNum := a2.2
                let copyP := selfP.copyTo branchLayout
                let rootP : Page := { data := selfP.data, lowerLen := 0, upperLen := 0,
                                      pageType := selfP.pageType }
                let pg3 := (a2.1.setDirty copyNum copyP).setDirty bnum rootP
                match copyP.firstEntry branchLayout with
                | .error e => ({ s with pager := pg3 }, .error e)
                | .ok none => ({ s with pager := pg3 }, .error .dataCorruption)
                | .ok (some (k, _)) =>
                  match rootP.entryScan branchLayout k with
                  | .error e => ({ s with pager := pg3 }, .error e)
                  | .ok (.occupied _ _ _ _) => ({ s with pager := pg3 }, .error .dataCorruption)
                  | .ok (.vacant idx0 off0) =>
                    match rootP.vacantInsert branchLayout idx0 off0 k copyNum with
                    | (_, .error e) => ({ s with pager := pg3 }, .error e)
                    | (rootP2, .ok _) =>
                      let s2 := { s with pager := pg3.setDirty bnum rootP2 }
                      match branchInsert k2 newNum fuel s2 bnum with
                      | (s3, .error e) => (s3, .error e)
                      | (s3, .ok b) =>
                        let s4 := { s3 with branches := s3.branches ++ [b] }
                        branchInsertTail s4 key pval k2 copyNum newNum
              | some bparent =>
                let s2 := { s with pager := pg1, branches := s.branches.dropLast }
                match branchInsert k2 newNum fuel s2 bparent with
                | (s3, .error e) => (s3, .error e)
                | (s3, .ok b) =>
                  let s4 := { s3 with branches := s3.branches ++ [b] }
                  branchInsertTail s4 key pval k2 bnum newNum
        | (_, .error e) => (s, .error e)

/-- `BTreeWrite::split_leaf`: split the full leaf into a fresh page,
insert the separator into the parent branch (promoting a new root in
place when the leaf was the root, with the leaf's page type stripped of
its low bit), and return the page number of the half the key belongs
to. -/
def splitLeaf (s : TreeState) (leafNum key fuel : Nat) :
    TreeState × Except Error Nat :=
  match s.getPage leafNum with
  | .error e => (s, .error e)
  | .ok p =>
    let a1 := s.pager.allocatePage
    let newNum := a1.2
    match p.splitTo leafLayout with
    | .error e => ({ s with pager := a1.1 }, .error e)
    | .ok (selfP, newP) =>
      let pg1 := (a1.1.setDirty leafNum selfP).setDirty newNum newP
      match newP.firstEntry leafLayout with
      | .error e => ({ s with pager := pg1 }, .error e)
      | .ok none => ({ s with pager := pg1 }, .error .invalidState)
      | .ok (some (k2, _)) =>
        match s.branches.getLast? with
        | none =>
          let a2 := pg1.allocatePage
          let copyNum := a2.2
          let copyP := selfP.copyTo leafLayout
          let rootP : Page := { data := selfP.data, lowerLen := 0, upperLen := 0,
                                pageType := selfP.pageType &&& 0xFE }
          let pg3 := (a2.1.setDirty copyNum copyP).setDirty leafNum rootP
          match copyP.firstEntry leafLayout with
          | .error e => ({ s with pager := pg3 }, .error e)
          | .ok none => ({ s with pager := pg3 }, .error .dataCorruption)
          | .ok (some (k, _)) =>
            match rootP.entryScan branchLayout k with
            | .error e => ({ s with pager := pg3 }, .error e)
            | .ok (.occupied _ _ _ _) => ({ s with pager := pg3 }, .error .dataCorruption)
            | .ok (.vacant idx0 off0) =>
              match rootP.vacantInsert branchLayout idx0 off0 k copyNum with
              | (_, .error e) => ({ s with pager := pg3 }, .error e)
              | (rootP2, .ok _) =>
                let s2 := { s with pager := pg3.setDirty leafNum rootP2 }
                match branchInsert k2 newNum fuel s2 leafNum with
                | (s3, .error e) => (s3, .error e)
                | (s3, .ok b) =>
                  ({ s3 with branches := s3.branches ++ [b] },
                   .ok (if key < k2 then copyNum else newNum))
        | some bparent =>
          let s2 := { s with pager := pg1, branches := s.branches.dropLast }
          match branchInsert k2 newNum fuel s2 bparent with
          | (s3, .error e) => (s3, .error e)
          | (s3, .ok b) =>
            ({ s3 with branches := s3.branches ++ [b] },
             .ok (if key < k2 then leafNum else newNum))

/-- `BTreeWrite::replace_branch_first`: in the nearest branch, move the
child pointer filed under `oldKey` to `newKey` (delete plus
`branch_insert`), recursing upward while the replaced entry was its
page's first. -/
def replaceBranchFirst (oldKey newKey : Nat) :
    Nat → TreeState → TreeState × Except Error Unit
  | 0, s => (s, .error .invalidState)
  | fuel + 1, s =>
    match s.branches.getLast? with
    | none => (s, .ok ())
    | some bnum =>
      let s1 := { s with branches := s.branches.dropLast }
      match s1.getPage bnum with
      | .error e => (s1, .error e)
      | .ok p =>
        match p.entryScan branchLayout oldKey with
        | .error e => (s1, .error e)
        | .ok (.vacant _ _) => ({ s1 with branches := s1.branches ++ [bnum] }, .ok ())
        | .ok (.occupied idx off kl vl) =>
          let childPage := readBytes p.data (off + kl) vl
          let p2 := p.occupiedDelete branchLayout idx off kl vl
          let s2 := { s1 with pager := s1.pager.setDirty bnum p2 }
          match branchInsert newKey childPage fuel s2 bnum with
          | (s3, .error e) => (s3, .error e)
          | (s3, .ok b) =>
            if entryFirst idx then
              match replaceBranchFirst oldKey newKey fuel s3 with
              | (s4, .error e) => (s4, .error e)
              | (s4, .ok _) => ({ s4 with branches := s4.branches ++ [b] }, .ok ())
            else ({ s3 with branches := s3.branches ++ [b] }, .ok ())

/-- The body of `reduce_depth` once the root branch page is in hand
(`memNum` is the page number whose memory the handle points into): when
the branch holds exactly one child, copy that child's content over the
root page and deallocate the child. -/
def reduceDepthGo (s : TreeState) (p : Page) (memNum : Nat) :
    TreeState × Except Error Unit :=
  match p.iter.next branchLayout with
  | (.error e, _) => (s, .error e)
  | (.ok none, _) => (s, .error .dataCorruption)
  | (.ok (some kv), it1) =>
    let first := kv.2.bytes
    match (it1.next branchLayout).1 with
    | .ok none =>
      match tryLoadW s.pager first with
      | .error e => (s, .error e)
      | .ok (pg2, .branch sb, _) =>
        let pg3 := (pg2.setDirty memNum (sb.copyTo branchLayout)).deallocate first
        ({ s with pager := pg3, branches := s.branches ++ [s.root] }, .ok ())
      | .ok (pg2, .leaf sl, _) =>
        let pg3 := (pg2.setDirty memNum (sl.copyTo leafLayout)).deallocate first
        ({ s with pager := pg3, leaf := some s.root }, .ok ())
    | _ => (s, .ok ())

/-- `BTreeWrite::reduce_depth`. -/
def reduceDepth (s : TreeState) : TreeState × Except Error Unit :=
  let s0 := { s with branches := s.branches.take 1 }
  if s0.leaf.isSome then (s0, .ok ())
  else
    match s0.branches.getLast? with
    | some b =>
      let s1 := { s0 with branches := s0.branches.dropLast }
      match s1.getPage b with
      | .error e => (s1, .error e)
      | .ok p => reduceDepthGo s1 p b
    | none =>
      match tryLoadW s0.pager s0.root with
      | .error e => (s0, .error e)
      | .ok (pg2, .branch p, repl) =>
        reduceDepthGo { s0 with pager := pg2 } p (repl.getD s0.root)
      | .ok (pg2, .leaf _, _) => ({ s0 with pager := pg2 }, .ok ())

/-- The reverse scan of `balance` picking two adjacent child entries:
`v0` ends on the last entry with key ≤ the target (or the first entry)
and `v1` on its successor.  Each is (entry index, key, child page). -/
def balancePickGo (key : Nat) :
    Nat → PIter → Option (Nat × Nat × Nat) → Option (Nat × Nat × Nat) →
    Except Error (Option (Nat × Nat × Nat) × Option (Nat × Nat × Nat))
  | 0, _, v0, v1 => .ok (v0, v1)
  | fuel + 1, it, v0, _ =>
    match it.nextBack branchLayout with
    | (.error e, _) => .error e
    | (.ok none, _) => .ok (v0, none)
    | (.ok (some kv), it2) =>
      let v1n := v0
      let v0n := some (it2.bi, kv.1, kv.2.bytes)
      if kv.1 ≤ key ∧ v1n.isSome then .ok (v0n, v1n)
      else balancePickGo key fuel it2 v0n v1n

/-- One arm of `balance` after both child pages are loaded (the two arms
of the source are identical up to the child layout).  `bp` is the parent
branch page (already holding any patched child pointers), `v1key` the
higher child's separator, `v0num`/`v1num` the (possibly relocated) child
page numbers.  A `.inr` result asks the caller to re-run `balance` on
that state (the tail recursion of the `Merged` case). -/
def treeBalanceArm {V : Type} (lay : Layout Nat V) (fuel : Nat)
    (s : TreeState) (bnum : Nat) (bp : Page)
    (v1key v0num v1num : Nat) (p0 p1 : Page) :
    (TreeState × Except Error Bool) ⊕ TreeState :=
  match p0.balance lay p1 with
  | .error e => .inl (s, .error e)
  | .ok (.balanced lower higher) =>
    let s1 := { s with pager := (s.pager.setDirty v0num lower).setDirty v1num higher }
    match higher.firstEntry lay with
    | .error e => .inl (s1, .error e)
    | .ok none => .inl (s1, .error .dataCorruption)
    | .ok (some (newKey, _)) =>
      let pwk := if v1key < newKey then lower else higher
      match pwk.getPair lay v1key with
      | .error e => .inl (s1, .error e)
      | .ok none => .inl (s1, .error .dataCorruption)
      | .ok (some (oldKey, _)) =>
        match bp.entryScan branchLayout oldKey with
        | .error e => .inl (s1, .error e)
        | .ok (.vacant _ _) => .inl (s1, .error .dataCorruption)
        | .ok (.occupied idx off kl vl) =>
          let higherPageNum := readBytes bp.data (off + kl) vl
          let bp2 := bp.occupiedDelete branchLayout idx off kl vl
          let s2 := { s1 with pager := s1.pager.setDirty bnum bp2 }
          match branchInsert newKey higherPageNum fuel s2 bnum with
          | (s3, .error e) => .inl (s3, .error e)
          | (s3, .ok _) => .inl (s3, .ok false)
  | .ok (.merged lower) =>
    let s1 := { s with pager := s.pager.setDirty v0num lower }
    match lower.getPair lay v1key with
    | .error e => .inl (s1, .error e)
    | .ok none => .inl (s1, .error .dataCorruption)
    | .ok (some (oldKey, _)) =>
      match bp.entryScan branchLayout oldKey with
      | .error e => .inl (s1, .error e)
      | .ok (.vacant _ _) => .inl (s1, .error .dataCorruption)
      | .ok (.occupied idx off kl vl) =>
        let bp2 := bp.occupiedDelete branchLayout idx off kl vl
        let s2 := { s1 with pager := (s1.pager.setDirty bnum bp2).deallocate v1num }
        if bp2.freeSpace branchLayout > PAGE4K * 3 / 4 then .inr s2
        else .inl (s2, .ok true)

/-- `BTreeWrite::balance`: pop the nearest branch, pick two adjacent
children around the key, load both (patching relocated pointers), and
balance them; a merge deletes the higher child's entry and may repeat on
the emptied branch.  `true` means the caller should try `reduce_depth`. -/
def treeBalance (key : Nat) : Nat → TreeState → TreeState × Except Error Bool
  | 0, s => (s, .error .invalidState)
  | fuel + 1, s =>
    match s.branches.getLast? with
    | none => (s, .ok true)
    | some bnum =>
      let s1 := { s with branches := s.branches.dropLast }
      match s1.getPage bnum with
      | .error e => (s1, .error e)
      | .ok p =>
        match balancePickGo key (p.upperLen + 1) p.iter none none with
        | .error e => (s1, .error e)
        | .ok (none, _) => (s1, .ok true)
        | .ok (some _, none) => (s1, .ok true)
        | .ok (some (idx0, _, v0num), some (idx1, k1, v1num)) =>
          match tryLoadW s1.pager v0num with
          | .error e => (s1, .error e)
          | .ok (pgA, w0, r0) =>
            match tryLoadW pgA v1num with
            | .error e => ({ s1 with pager := pgA }, .error e)
            | .ok (pgB, w1, r1) =>
              let p2 := match r0 with | some n => setBranchValue p idx0 n | none => p
              let p3 := match r1 with | some n => setBranchValue p2 idx1 n | none => p2
              let s2 := { s1 with pager := pgB.setDirty bnum p3 }
              match w0, w1 with
              | .branch b0, .branch b1 =>
                match treeBalanceArm branchLayout fuel s2 bnum p3 k1
                        (r0.getD v0num) (r1.getD v1num) b0 b1 with
                | .inl r => r
                | .inr s' => treeBalance key fuel s'
              | .leaf l0, .leaf l1 =>
                match treeBalanceArm leafLayout fuel s2 bnum p3 k1
                        (r0.getD v0num) (r1.getD v1num) l0 l1 with
                | .inl r => r
                | .inr s' => treeBalance key fuel s'
              | _, _ => (s2, .error .dataCorruption)

/-- The first-entry fixup shared by the tree-level insert paths: when
the fresh pair became its leaf's first entry, rename the old first key
to the new one in every ancestor branch, then re-locate the entry. -/
def insertFirstFixup (s : TreeState) (leafNum key fuel : Nat) :
    TreeState × Except Error Unit :=
  match s.getPage leafNum with
  | .error e => (s, .error e)
  | .ok p =>
    let recheck : TreeState → TreeState × Except Error Unit := fun s2 =>
      match p.entryScan leafLayout key with
      | .error e => (s2, .error e)
      | .ok (.occupied _ _ _ _) => (s2, .ok ())
      | .ok (.vacant _ _) => (s2, .error .invalidState)
    match p.iter.next leafLayout with
    | (.error e, _) => (s, .error e)
    | (.ok none, _) => (s, .error .invalidState)
    | (.ok (some _), it1) =>
      match (it1.next leafLayout).1 with
      | .error e => (s, .error e)
      | .ok none => recheck s
      | .ok (some (oldKey, _)) =>
        match replaceBranchFirst oldKey key fuel s with
        | (s2, .error e) => (s2, .error e)
        | (s2, .ok _) => recheck s2

/-- The tree-level `VacantEntry::insert`: insert into the located leaf,
splitting it when full, and fix up ancestor separators when the pair
became the leaf's first entry. -/
def treeVacantInsert (s : TreeState) (leafNum idx off key : Nat) (val : ByteSeq)
    (fuel : Nat) : TreeState × Except Error Unit :=
  match s.getPage leafNum with
  | .error e => (s, .error e)
  | .ok p =>
    match p.vacantInsert leafLayout idx off key val with
    | (p2, .ok _) =>
      let s1 := { s with pager := s.pager.setDirty leafNum p2 }
      if entryFirst idx then insertFirstFixup s1 leafNum key fuel
      else (s1, .ok ())
    | (_, .error (.outOfSpace _)) =>
      match splitLeaf s leafNum key fuel with
      | (s1, .error e) => (s1, .error e)
      | (s1, .ok leaf2) =>
        match s1.getPage leaf2 with
        | .error e => (s1, .error e)
        | .ok q =>
          match q.entryScan leafLayout key with
          | .error e => (s1, .error e)
          | .ok (.occupied _ _ _ _) => (s1, .error .invalidState)
          | .ok (.vacant idx2 off2) =>
            match q.vacantInsert leafLayout idx2 off2 key val with
            | (_, .error e) => (s1, .error e)
            | (q2, .ok _) =>
              let s2 := { s1 with pager := s1.pager.setDirty leaf2 q2 }
              if entryFirst idx2 then insertFirstFixup s2 leaf2 key fuel
              else (s2, .ok ())
    | (_, .error e) => (s, .error e)

/-- The tail of the tree-level `OccupiedEntry::delete`: after the
deletion (and any separator fixup), rebalance — possibly reducing the
tree's depth — when the leaf became mostly empty. -/
def treeOccupiedDeleteFinish (s2 : TreeState) (p2 : Page) (key fuel : Nat) :
    TreeState × Except Error Unit :=
  if p2.freeSpace leafLayout > PAGE4K * 3 / 4 then
    match treeBalance key fuel s2 with
    | (s3, .error e) => (s3, .error e)
    | (s3, .ok true) => reduceDepth s3
    | (s3, .ok false) => (s3, .ok ())
  else (s2, .ok ())

/-- The tree-level `OccupiedEntry::delete`: delete from the leaf, fix up
ancestor separators when it was the first entry, and rebalance. -/
def treeOccupiedDelete (s : TreeState) (leafNum idx off kl vl key fuel : Nat) :
    TreeState × Except Error Unit :=
  match s.getPage leafNum with
  | .error e => (s, .error e)
  | .ok p =>
    let p2 := p.occupiedDelete leafLayout idx off kl vl
    let s1 := { s with pager := s.pager.setDirty leafNum p2 }
    if entryFirst idx then
      match (p2.iter.next leafLayout).1 with
      | .error e => (s1, .error e)
      | .ok none => treeOccupiedDeleteFinish s1 p2 key fuel
      | .ok (some (newKey, _)) =>
        match replaceBranchFirst key newKey fuel s1 with
        | (s2, .error e) => (s2, .error e)
        | (s2, .ok _) => treeOccupiedDeleteFinish s2 p2 key fuel
    else treeOccupiedDeleteFinish s1 p2 key fuel

/-- The tree-level `OccupiedEntry::replace`: replace the value in place,
splitting the leaf and re-locating the entry when the new value does not
fit. -/
def treeOccupiedReplace (s : TreeState) (leafNum idx off kl vl key : Nat)
    (val : ByteSeq) (fuel : Nat) : TreeState × Except Error Unit :=
  match s.getPage leafNum with
  | .error e => (s, .error e)
  | .ok p =>
    match p.occupiedReplace leafLayout idx off kl vl val with
    | (p2, .ok _) => ({ s with pager := s.pager.setDirty leafNum p2 }, .ok ())
    | (_, .error (.outOfSpace _)) =>
      match splitLeaf s leafNum key fuel with
      | (s1, .error e) => (s1, .error e)
      | (s1, .ok leaf2) =>
        match s1.getPage leaf2 with
        | .error e => (s1, .error e)
        | .ok q =>
          match q.entryScan leafLayout key with
          | .error e => (s1, .error e)
          | .ok (.vacant _ _) => (s1, .error .invalidState)
          | .ok (.occupied idx2 off2 kl2 vl2) =>
            match q.occupiedReplace leafLayout idx2 off2 kl2 vl2 val with
            | (_, .error e) => (s1, .error e)
            | (q2, .ok _) => ({ s1 with pager := s1.pager.setDirty leaf2 q2 }, .ok ())
    | (_, .error e) => (s, .error e)

/-- A map-style insert-or-update through `BTreeWrite::entry`: a vacancy
takes `VacantEntry::insert`, an occupied entry `OccupiedEntry::replace`. -/
def treeInsert (s : TreeState) (key : Nat) (val : ByteSeq) :
    TreeState × Except Error Unit :=
  match treeEntry s key with
  | (s1, .error e) => (s1, .error e)
  | (s1, .ok (.vacant leafNum idx off)) => treeVacantInsert s1 leafNum idx off key val 64
  | (s1, .ok (.occupied leafNum idx off kl vl)) =>
      treeOccupiedReplace s1 leafNum idx off kl vl key val 64

/-- A map-style delete through `BTreeWrite::entry` (absent keys are left
alone, as a caller holding a `VacantEntry` has nothing to delete). -/
def treeDelete (s : TreeState) (key : Nat) : TreeState × Except Error Unit :=
  match treeEntry s key with
  | (s1, .error e) => (s1, .error e)
  | (s1, .ok (.vacant _ _ _)) => (s1, .ok ())
  | (s1, .ok (.occupied leafNum idx off kl vl)) =>
      treeOccupiedDelete s1 leafNum idx off kl vl key 64

/-- `BasicDbWrite::commit`: the dirty pages shadow the committed store,
giving the memory subsequent readers see. -/
def Pager.commitMem (pg : Pager) : ReadMem := pg.dirty ++ pg.clean

/-- `new_db` of the crate's test harness: page 0 is an empty `u64→var`
leaf (page type 1) and the next free page is 1. -/
def newDbPager : Pager :=
  { clean := [(0, Page.new 1)], dirty := [], next := 1 }

end CrabDads

namespace CrabDads

/-! ### Sequential inserts against the reference map (claim C1)

The scenario mirrors the crate's `sequential_insert` test: a fresh
database, then ascending keys inserted through `entry`.  1008-byte
values make a leaf full after four pairs, so the fifth insert must split
the root leaf. -/

def c1Val (k : Nat) : ByteSeq := .rep 1008 (k + 1)

/-- Apply `treeInsert` for each key in turn, stopping at the first
error, as the test's `unwrap` does. -/
def treeInsertSeq : TreeState × Except Error Unit → List Nat → TreeState × Except Error Unit
  | (s, .ok _), k :: ks => treeInsertSeq (treeInsert s k (c1Val k)) ks
  | r, _ => r

/-- The writer handle over the fresh database (the load of the clean
empty root leaf always succeeds; the error arm is unreachable). -/
def c1Start : TreeState × Except Error Unit :=
  match treeLoad newDbPager 0 with
  | .ok r => (r.1, .ok ())
  | .error e => ({ pager := newDbPager, branches := [], leaf := none, root := 0 }, .error e)

def c1After4 : TreeState × Except Error Unit := treeInsertSeq c1Start [0, 1, 2, 3]

def c1After5 : TreeState × Except Error Unit := treeInsertSeq c1Start [0, 1, 2, 3, 4]

/-- The reference ordered map of the claim: a sorted association list
with insert-or-replace. -/
def refInsert (k : Nat) (v : ByteSeq) : List (Nat × ByteSeq) → List (Nat × ByteSeq)
  | [] => [(k, v)]
  | (k2, v2) :: t =>
    if k < k2 then (k, v) :: (k2, v2) :: t
    else if k = k2 then (k, v) :: t
    else (k2, v2) :: refInsert k v t

def refGet (k : Nat) : List (Nat × ByteSeq) → Option ByteSeq
  | [] => none
  | (k2, v2) :: t => if k = k2 then some v2 else refGet k t

def c1Ref : List (Nat × ByteSeq) :=
  [0, 1, 2, 3, 4].foldl (fun m k => refInsert k (c1Val k) m) []

/-- C1: the tree does not track the reference map.  Four inserts work
(`get` then matches the reference), but the fifth — the first to split
a leaf — returns `DataCorruption`: `split_to` leaves both halves with
keys 0 and 1, so the duplicated separator collides in the fresh root
branch.  The reference map accepts the same sequence and holds all five
keys, while `get` on the committed tree no longer finds keys 2 and 3. -/
theorem c1_insert_sequence_diverges_from_reference_map :
    c1After4.2 = .ok () ∧
    readerGet c1After4.1.pager.commitMem c1After4.1.root 2 = .ok (some (c1Val 2)) ∧
    readerGet c1After4.1.pager.commitMem c1After4.1.root 5 = .ok none ∧
    c1After5.2 = .error .dataCorruption ∧
    readerGet c1After5.1.pager.commitMem c1After5.1.root 2 = .ok none ∧
    readerGet c1After5.1.pager.commitMem c1After5.1.root 3 = .ok none ∧
    refGet 2 c1Ref = some (c1Val 2) ∧
    refGet 3 c1Ref = some (c1Val 3) ∧
    refGet 4 c1Ref = some (c1Val 4) := by
  decide

/-! ### The separator invariant after a merging delete (claim C8)

A two-level tree: root branch (page 1, dirty as after `load`) holding
separators 10, 20, 30 for the clean leaves 2, 3, 4, each leaf's first
key equal to its separator.  Deleting key 10 empties leaf 2 and triggers
a rebalance that merges leaf 3 into it. -/

def c8vb (b : Nat) : ByteSeq := .rep 3 b

def c8Pager : Pager :=
  { clean := [(2, leafPage [(10, c8vb 1)]), (3, leafPage [(20, c8vb 2)]),
              (4, leafPage [(30, c8vb 3)])],
    dirty := [(1, branchPage [(10, 2), (20, 3), (30, 4)])],
    next := 5 }

def c8S : TreeState := { pager := c8Pager, branches := [1], leaf := none, root := 1 }

def c8Run : TreeState × Except Error Unit := treeDelete c8S 10

/-- C8: the separator invariant breaks.  Beforehand every leaf's first
key equals its stored separator.  `delete 10` completes with `Ok`, yet
afterwards the root branch maps separator 10 to page 5 — the leaf that
absorbed the merge, whose first (and only) key is 20.  The delete path
merges the emptied leaf with its right neighbour but never renames the
stale separator in the parent. -/
theorem c8_delete_breaks_separator_invariant :
    ((c8S.pager.clean.lookup 2).map (fun p => p.firstEntry leafLayout)
        = some (.ok (some (10, c8vb 1)))) ∧
    ((c8S.pager.clean.lookup 3).map (fun p => p.firstEntry leafLayout)
        = some (.ok (some (20, c8vb 2)))) ∧
    ((c8S.pager.clean.lookup 4).map (fun p => p.firstEntry leafLayout)
        = some (.ok (some (30, c8vb 3)))) ∧
    ((c8S.pager.dirty.lookup 1).map (fun p => p.entries branchLayout)
        = some (.ok [(10, ⟨8, 2⟩), (20, ⟨8, 3⟩), (30, ⟨8, 4⟩)])) ∧
    c8Run.2 = .ok () ∧
    ((c8Run.1.pager.dirty.lookup 1).map (fun p => p.entries branchLayout)
        = some (.ok [(10, ⟨8, 5⟩), (30, ⟨8, 4⟩)])) ∧
    ((c8Run.1.pager.dirty.lookup 5).map (fun p => p.firstEntry leafLayout)
        = some (.ok (some (20, c8vb 2)))) := by
  exact ⟨by decide, by decide, by decide, by decide, by decide, by decide, by decide⟩

end CrabDads

namespace CrabDads

/-! ### Root-page stability (claim C9)

None of the writer routines ever assigns the handle's `root` field: a
root split rebuilds the root page in place after copying it aside, and
`reduce_depth` copies the lone child over the root page.  The lemmas
below establish this for every routine, by induction on the fuel for the
self-recursive ones. -/

theorem branchInsertTail_root (s : TreeState) (key pval k2 oldNum newNum : Nat) :
    ((branchInsertTail s key pval k2 oldNum newNum).1).root = s.root := by
  simp only [branchInsertTail]
  repeat' split
  all_goals rfl

theorem branchInsert_root :
    ∀ (fuel key pval : Nat) (s : TreeState) (bnum : Nat),
      ((branchInsert key pval fuel s bnum).1).root = s.root := by
  intro fuel
  induction fuel with
  | zero => intro key pval s bnum; rfl
  | succ n ih =>
    intro key pval s bnum
    have hcongr : ∀ {key' pval' : Nat} {a : TreeState × Except Error Nat}
        {s' : TreeState} {b' : Nat},
        branchInsert key' pval' n s' b' = a → a.1.root = s'.root :=
      fun h => h ▸ ih _ _ _ _
    simp only [branchInsert]
    repeat' split
    all_goals first
      | rfl
      | (rename_i heq; exact (hcongr heq).trans rfl)
      | (rename_i heq
         exact (branchInsertTail_root _ _ _ _ _ _).trans ((hcongr heq).trans rfl))

end CrabDads

namespace CrabDads

theorem splitLeaf_root (s : TreeState) (leafNum key fuel : Nat) :
    ((splitLeaf s leafNum key fuel).1).root = s.root := by
  have hB : ∀ {key' pval' : Nat} {a : TreeState × Except Error Nat}
      {s' : TreeState} {b' : Nat},
      branchInsert key' pval' fuel s' b' = a → a.1.root = s'.root :=
    fun h => h ▸ branchInsert_root _ _ _ _ _
  simp only [splitLeaf]
  repeat' split
  all_goals first
    | rfl
    | (rename_i heq; exact (hB heq).trans rfl)
    | (rename_i heq hlt; exact (hB heq).trans rfl)

theorem replaceBranchFirst_root (oldKey newKey : Nat) :
    ∀ (fuel : Nat) (s : TreeState),
      ((replaceBranchFirst oldKey newKey fuel s).1).root = s.root := by
  intro fuel
  induction fuel with
  | zero => intro s; rfl
  | succ n ih =>
    intro s
    have hR : ∀ {a : TreeState × Except Error Unit} {s' : TreeState},
        replaceBranchFirst oldKey newKey n s' = a → a.1.root = s'.root :=
      fun h => h ▸ ih _
    have hB : ∀ {key' pval' : Nat} {a : TreeState × Except Error Nat}
        {s' : TreeState} {b' : Nat},
        branchInsert key' pval' n s' b' = a → a.1.root = s'.root :=
      fun h => h ▸ branchInsert_root _ _ _ _ _
    simp only [replaceBranchFirst]
    repeat' split
    all_goals first
      | rfl
      | (rename_i heq; exact (hB heq).trans rfl)
      | (rename_i heq; exact (hR heq).trans ((hB (by assumption)).trans rfl))
      | (rename_i heq; exact (hB (by assumption)).trans rfl)

theorem reduceDepthGo_root (s : TreeState) (p : Page) (memNum : Nat) :
    ((reduceDepthGo s p memNum).1).root = s.root := by
  simp only [reduceDepthGo]
  repeat' split
  all_goals rfl

theorem reduceDepth_root (s : TreeState) :
    ((reduceDepth s).1).root = s.root := by
  simp only [reduceDepth]
  repeat' split
  all_goals first
    | rfl
    | exact (reduceDepthGo_root _ _ _).trans rfl

end CrabDads

namespace CrabDads

theorem treeBalanceArm_root_inl {V : Type} {lay : Layout Nat V} {fuel : Nat}
    {s : TreeState} {bnum : Nat} {bp : Page} {v1key v0num v1num : Nat} {p0 p1 : Page}
    {r : TreeState × Except Error Bool}
    (h : treeBalanceArm lay fuel s bnum bp v1key v0num v1num p0 p1 = .inl r) :
    r.1.root = s.root := by
  have hB : ∀ {key' pval' : Nat} {a : TreeState × Except Error Nat}
      {s' : TreeState} {b' : Nat},
      branchInsert key' pval' fuel s' b' = a → a.1.root = s'.root :=
    fun hh => hh ▸ branchInsert_root _ _ _ _ _
  simp only [treeBalanceArm] at h
  repeat' split at h
  all_goals cases h
  all_goals first
    | rfl
    | (rename_i heq; exact (hB heq).trans rfl)

theorem treeBalanceArm_root_inr {V : Type} {lay : Layout Nat V} {fuel : Nat}
    {s : TreeState} {bnum : Nat} {bp : Page} {v1key v0num v1num : Nat} {p0 p1 : Page}
    {s2 : TreeState}
    (h : treeBalanceArm lay fuel s bnum bp v1key v0num v1num p0 p1 = .inr s2) :
    s2.root = s.root := by
  simp only [treeBalanceArm] at h
  repeat' split at h
  all_goals cases h
  all_goals rfl

theorem treeBalance_root (key : Nat) :
    ∀ (fuel : Nat) (s : TreeState), ((treeBalance key fuel s).1).root = s.root := by
  intro fuel
  induction fuel with
  | zero => intro s; rfl
  | succ n ih =>
    intro s
    simp only [treeBalance]
    repeat' split
    all_goals first
      | rfl
      | (rename_i heq; exact (treeBalanceArm_root_inl heq).trans rfl)
      | (rename_i heq; exact (ih _).trans ((treeBalanceArm_root_inr heq).trans rfl))

/-- From an equation pinning a routine's result pair, the root of the
returned state is the root of the routine's result. -/
theorem fst_root_of_eq {alpha : Type} {f : TreeState × alpha} {t : TreeState}
    {r : alpha} (h : f = (t, r)) : t.root = f.1.root :=
  (congrArg (fun x : TreeState × alpha => x.1.root) h).symm

theorem insertFirstFixup_root (s : TreeState) (leafNum key fuel : Nat) :
    ((insertFirstFixup s leafNum key fuel).1).root = s.root := by
  simp only [insertFirstFixup]
  repeat' split
  all_goals first
    | rfl
    | exact (fst_root_of_eq (by assumption)).trans (replaceBranchFirst_root _ _ _ _)

theorem treeVacantInsert_root (s : TreeState) (leafNum idx off key : Nat)
    (val : ByteSeq) (fuel : Nat) :
    ((treeVacantInsert s leafNum idx off key val fuel).1).root = s.root := by
  simp only [treeVacantInsert]
  repeat' split
  all_goals first
    | rfl
    | exact (insertFirstFixup_root _ _ _ _).trans rfl
    | (refine Eq.trans ?_ (splitLeaf_root s leafNum key fuel)
       rw [show splitLeaf s leafNum key fuel = _ from by assumption]
       all_goals exact (insertFirstFixup_root _ _ _ _).trans rfl)

theorem treeOccupiedDeleteFinish_root (s2 : TreeState) (p2 : Page) (key fuel : Nat) :
    ((treeOccupiedDeleteFinish s2 p2 key fuel).1).root = s2.root := by
  have hBal : ∀ {a : TreeState × Except Error Bool} {s' : TreeState},
      treeBalance key fuel s' = a → a.1.root = s'.root :=
    fun h => h ▸ treeBalance_root _ _ _
  simp only [treeOccupiedDeleteFinish]
  repeat' split
  all_goals first
    | rfl
    | (rename_i heq; exact (hBal heq).trans rfl)
    | (rename_i heq; exact (reduceDepth_root _).trans ((hBal heq).trans rfl))

theorem treeOccupiedDelete_root (s : TreeState) (leafNum idx off kl vl key fuel : Nat) :
    ((treeOccupiedDelete s leafNum idx off kl vl key fuel).1).root = s.root := by
  have hR : ∀ {ok nk : Nat} {a : TreeState × Except Error Unit} {s' : TreeState},
      replaceBranchFirst ok nk fuel s' = a → a.1.root = s'.root :=
    fun h => h ▸ replaceBranchFirst_root _ _ _ _
  simp only [treeOccupiedDelete]
  repeat' split
  all_goals first
    | rfl
    | exact (treeOccupiedDeleteFinish_root _ _ _ _).trans rfl
    | (rename_i heq; exact (hR heq).trans rfl)
    | (rename_i heq
       exact (treeOccupiedDeleteFinish_root _ _ _ _).trans ((hR heq).trans rfl))

theorem treeOccupiedReplace_root (s : TreeState) (leafNum idx off kl vl key : Nat)
    (val : ByteSeq) (fuel : Nat) :
    ((treeOccupiedReplace s leafNum idx off kl vl key val fuel).1).root = s.root := by
  simp only [treeOccupiedReplace]
  repeat' split
  all_goals first
    | rfl
    | (refine Eq.trans ?_ (splitLeaf_root s leafNum key fuel)
       rw [show splitLeaf s leafNum key fuel = _ from by assumption])

theorem treeEntryGo_root (key : Nat) :
    ∀ (fuel : Nat) (s : TreeState) (wp : WPage) (num : Nat),
      ((treeEntryGo key fuel s wp num).1).root = s.root := by
  intro fuel
  induction fuel with
  | zero => intro s wp num; cases wp <;> rfl
  | succ n ih =>
    intro s wp num
    cases wp with
    | leaf l =>
      simp only [treeEntryGo]
      repeat' split
      all_goals rfl
    | branch b =>
      simp only [treeEntryGo]
      repeat' split
      all_goals first
        | rfl
        | exact (ih _ _ _).trans rfl

theorem treeEntry_root (s : TreeState) (key : Nat) :
    ((treeEntry s key).1).root = s.root := by
  simp only [treeEntry]
  repeat' split
  all_goals first
    | rfl
    | exact (treeEntryGo_root _ _ _ _ _).trans rfl

end CrabDads

namespace CrabDads

/-- C9: once a writer handle exists, no operation moves the root.  Both
map operations through `BTreeWrite::entry` — insert-or-replace (covering
`VacantEntry::insert` with its leaf splits and root promotion, and
`OccupiedEntry::replace`) and delete (covering `OccupiedEntry::delete`
with its rebalancing and depth reduction) — leave the handle's root page
number unchanged, for every starting state, key, and value. -/
theorem c9_writer_operations_preserve_root (s : TreeState) (key : Nat) (val : ByteSeq) :
    ((treeInsert s key val).1).root = s.root ∧
    ((treeDelete s key).1).root = s.root := by
  constructor
  · simp only [treeInsert]
    repeat' split
    all_goals
      (refine Eq.trans ?_ (treeEntry_root s key)
       rw [show treeEntry s key = _ from by assumption]
       all_goals first
         | rfl
         | exact (treeVacantInsert_root _ _ _ _ _ _ _).trans rfl
         | exact (treeOccupiedReplace_root _ _ _ _ _ _ _ _ _).trans rfl)
  · simp only [treeDelete]
    repeat' split
    all_goals
      (refine Eq.trans ?_ (treeEntry_root s key)
       rw [show treeEntry s key = _ from by assumption]
       all_goals first
         | rfl
         | exact (treeOccupiedDelete_root _ _ _ _ _ _ _ _).trans rfl)

end CrabDads
